import Mathlib

/-!
Verification of the progressive schema-knowledge engine of this repository:
the schema model (`SchemaCache`, `TableInfo`, `ColumnInfo`, `Relationship`),
the additive schema merger (`mergeWithExistingSchema`, `mergeTableInfo`,
`mergeColumnInfo`), the type inferencer (`inferColumnType`,
`inferTypesFromData`), the schema builder's learning path
(`ensureTableExists`, `ensureColumnExists`, `learnFromResults`,
`runLearningTask`, `learnFromQuery`) and the schema compressor
(`compressSchema`, `trimToTokenLimit`, `schemaToString`, `estimateTokens`).

The embedding is a direct translation of the TypeScript sources.  JavaScript
in-place mutation of shared arrays/objects is modelled by explicit state
passing; where a function mutates an object that is aliased from an enclosing
structure, the model threads the updated structure.  Optional string fields
(`description?`) are modelled as `String` with `""` for the absent value,
since the source only ever tests them for truthiness (where `undefined` and
`""` coincide); the optional `examples?: string[]` field is modelled as
`Option (List String)` because the source distinguishes an absent array from
an empty one.  `uuid` generation is modelled by an explicit id supply.
-/

/-- Column information, from `types/storage.ts` (`ColumnInfo`). -/
structure ColumnInfo where
  id : String
  name : String
  type : String
  description : String := ""
  isPrimaryKey : Bool
  isForeignKey : Bool
  isNullable : Bool
  examples : Option (List String) := none
deriving Repr, DecidableEq

/-- Table information, from `types/storage.ts` (`TableInfo`). -/
structure TableInfo where
  id : String
  name : String
  description : String := ""
  columns : List ColumnInfo
deriving Repr, DecidableEq

/-- A relationship between tables, from `types/storage.ts` (`Relationship`). -/
structure Relationship where
  id : String
  sourceTableId : String
  sourceColumnId : String
  targetTableId : String
  targetColumnId : String
  type : String
deriving Repr, DecidableEq

/-- The persisted schema snapshot, from `types/storage.ts` (`SchemaCache`). -/
structure SchemaCache where
  databaseId : String
  lastUpdated : Nat
  tables : List TableInfo
  relationships : List Relationship
deriving Repr, DecidableEq

/-- First-occurrence de-duplication with an accumulator of already seen
elements: the model of iterating a JavaScript `Set` built from a list
(`new Set([...])` followed by `Array.from`), which preserves first-insertion
order. -/
def dedupFirstAux (seen : List String) : List String → List String
  | [] => []
  | x :: xs =>
    if x ∈ seen then dedupFirstAux seen xs
    else x :: dedupFirstAux (x :: seen) xs

/-- `Array.from(new Set(l))` in JavaScript: keeps the first occurrence of
each element, in order. -/
def dedupFirst (l : List String) : List String :=
  dedupFirstAux [] l

/-- The description-filling statement of `mergeColumnInfo`: fill only if the
incoming description is non-empty and the existing one empty. -/
def mergeColDescriptionStep (existingColumn newColumn : ColumnInfo) : ColumnInfo :=
  if newColumn.description ≠ "" ∧ existingColumn.description = "" then
    { existingColumn with description := newColumn.description }
  else existingColumn

/-- The type-upgrade statement of `mergeColumnInfo`: upgrade only from
`unknown` to a concrete type. -/
def mergeColTypeStep (c newColumn : ColumnInfo) : ColumnInfo :=
  if c.type = "unknown" ∧ newColumn.type ≠ "unknown" then
    { c with type := newColumn.type }
  else c

/-- The primary-key statement of `mergeColumnInfo`. -/
def mergeColPrimaryKeyStep (c newColumn : ColumnInfo) : ColumnInfo :=
  if newColumn.isPrimaryKey then { c with isPrimaryKey := true } else c

/-- The foreign-key statement of `mergeColumnInfo`. -/
def mergeColForeignKeyStep (c newColumn : ColumnInfo) : ColumnInfo :=
  if newColumn.isForeignKey then { c with isForeignKey := true } else c

/-- The nullability statement of `mergeColumnInfo`. -/
def mergeColNullableStep (c newColumn : ColumnInfo) : ColumnInfo :=
  if ¬ c.isNullable ∧ newColumn.isNullable then { c with isNullable := true } else c

/-- The example-merging statement of `mergeColumnInfo`: copy the incoming
examples when none exist, otherwise form the order-preserving de-duplicated
union (no cap is applied here). -/
def mergeColExamplesStep (c newColumn : ColumnInfo) : ColumnInfo :=
  match newColumn.examples with
  | none => c
  | some newEx =>
    if newEx ≠ [] then
      match c.examples with
      | none => { c with examples := some newEx }
      | some oldEx => { c with examples := some (dedupFirst (oldEx ++ newEx)) }
    else c

/-- `mergeColumnInfo` from the schema parser module: additive, field-by-field
merge of an incoming column into an existing one, one step per statement of
the source. -/
def mergeColumnInfo (existingColumn newColumn : ColumnInfo) : ColumnInfo :=
  mergeColExamplesStep
    (mergeColNullableStep
      (mergeColForeignKeyStep
        (mergeColPrimaryKeyStep
          (mergeColTypeStep (mergeColDescriptionStep existingColumn newColumn) newColumn)
          newColumn)
        newColumn)
      newColumn)
    newColumn

/-- Update the last element of a list satisfying `p` (the JavaScript `Map`
built from a list keeps, for a duplicated key, the entry of the last element;
mutating the object it returns therefore updates the last occurrence). -/
def updateLast {α : Type} (p : α → Bool) (f : α → α) : List α → List α
  | [] => []
  | x :: xs =>
    if xs.any p then x :: updateLast p f xs
    else if p x then f x :: xs
    else x :: xs

/-- `mergeTableInfo` from the schema parser module: fills the description if
empty, then reconciles columns by id against a lookup map built once from the
existing columns; an incoming column with an unseen id is appended. -/
def mergeTableInfo (existingTable newTable : TableInfo) : TableInfo :=
  let t :=
    if newTable.description ≠ "" ∧ existingTable.description = "" then
      { existingTable with description := newTable.description }
    else existingTable
  let origColIds := t.columns.map (·.id)
  { t with
    columns := newTable.columns.foldl (fun acc newColumn =>
      if newColumn.id ∈ origColIds then
        updateLast (fun c => c.id == newColumn.id)
          (fun c => mergeColumnInfo c newColumn) acc
      else acc ++ [newColumn]) t.columns }

/-- `mergeWithExistingSchema` from the schema parser module, on the path where
an existing snapshot was found in storage: tables are matched by id against a
map built once from the existing tables (unmatched tables are appended in
full), relationships are appended when their id is not already present, and
`lastUpdated` is set to the current time.  Persistence is externalized. -/
def mergeWithExistingSchema (existingSchema newSchema : SchemaCache) (now : Nat) :
    SchemaCache :=
  let origTableIds := existingSchema.tables.map (·.id)
  let tables := newSchema.tables.foldl (fun acc newTable =>
    if newTable.id ∈ origTableIds then
      updateLast (fun t => t.id == newTable.id)
        (fun t => mergeTableInfo t newTable) acc
    else acc ++ [newTable]) existingSchema.tables
  let origRelIds := existingSchema.relationships.map (·.id)
  let relationships := existingSchema.relationships ++
    newSchema.relationships.filter (fun r => r.id ∉ origRelIds)
  { existingSchema with
    tables := tables
    relationships := relationships
    lastUpdated := now }

example :
    (mergeColumnInfo
      { id := "c1", name := "x", type := "unknown", isPrimaryKey := false,
        isForeignKey := false, isNullable := false }
      { id := "c1", name := "x", type := "integer", isPrimaryKey := true,
        isForeignKey := false, isNullable := true,
        examples := some ["1", "2"] }).type = "integer" := by decide

example :
    (mergeColumnInfo
      { id := "c1", name := "x", type := "date", isPrimaryKey := false,
        isForeignKey := false, isNullable := true,
        examples := some ["a", "b"] }
      { id := "c1", name := "x", type := "integer", isPrimaryKey := false,
        isForeignKey := false, isNullable := false,
        examples := some ["b", "c"] }).examples = some ["a", "b", "c"] := by decide

/-- ASCII lower-casing of a string (the model of JavaScript `toLowerCase` on
the identifier-like names occurring here), built on character lists so that it
evaluates inside the kernel. -/
def strLower (s : String) : String :=
  String.mk (s.toList.map Char.toLower)

/-- Whitespace test used by `trim`. -/
def isWhitespaceChar (c : Char) : Bool :=
  c == ' ' || c == '\t' || c == '\n' || c == '\r'

/-- JavaScript `String.prototype.trim`. -/
def strTrim (s : String) : String :=
  String.mk (((s.toList.dropWhile isWhitespaceChar).reverse.dropWhile isWhitespaceChar).reverse)

/-- Split a character list on a separator character; the final segment is the
accumulator.  Models JavaScript `split(sep)` for a one-character separator. -/
def splitOnCharAux (sep : Char) : List Char → List Char → List (List Char)
  | [], acc => [acc.reverse]
  | c :: cs, acc =>
    if c == sep then acc.reverse :: splitOnCharAux sep cs []
    else splitOnCharAux sep cs (c :: acc)

/-- JavaScript `s.split(sep)` for a one-character separator. -/
def splitOnChar (sep : Char) (s : String) : List String :=
  (splitOnCharAux sep s.toList []).map String.mk

/-- Value of a digit run read in base 10. -/
def digitsToNat (ds : List Char) : Nat :=
  ds.foldl (fun acc c => acc * 10 + (c.toNat - 48)) 0

/-- Parse a string as a decimal natural number (all characters digits,
nonempty), as `Number(...)` does on the date components checked here. -/
def strToNat? (s : String) : Option Nat :=
  if s.toList ≠ [] ∧ s.toList.all Char.isDigit then some (digitsToNat s.toList)
  else none

/-- A JavaScript number modelled as a decimal scaled integer: the value is
`mant / 10 ^ exp`.  This captures every decimal literal (and every value
`parseFloat` can produce) without rational normalization. -/
structure JsNumber where
  mant : Int
  exp : Nat
deriving Repr, DecidableEq

/-- `Number.isInteger` for the decimal model. -/
def JsNumber.isInteger (n : JsNumber) : Bool :=
  n.mant % ((10 : Int) ^ n.exp) == 0

/-- A JavaScript runtime value as it occurs in sampled result rows: a number,
a string, a boolean or `null`.  Absent (`undefined`) cells are not
representable; they are dropped at the sampling site, matching the source
which never pushes `undefined` into the sample list. -/
inductive JsValue where
  | num (n : JsNumber)
  | str (s : String)
  | bool (b : Bool)
  | null
deriving Repr, DecidableEq

/-- An integer-valued JavaScript number. -/
def JsValue.int (i : Int) : JsValue :=
  .num { mant := i, exp := 0 }

def JsValue.isNum : JsValue → Bool
  | .num _ => true
  | _ => false

def JsValue.isBool : JsValue → Bool
  | .bool _ => true
  | _ => false

/-- Model of the JavaScript builtin `parseFloat` on a string: skip leading
whitespace, read an optional sign, then a decimal literal `digits[.digits]`;
`none` models `NaN` (no digits at all).  Exponent suffixes and `Infinity`
are outside the modelled fragment. -/
def jsParseFloatChars (cs0 : List Char) : Option JsNumber :=
  let cs1 := cs0.dropWhile isWhitespaceChar
  let signAndRest : Int × List Char :=
    match cs1 with
    | '-' :: rest => (-1, rest)
    | '+' :: rest => (1, rest)
    | _ => (1, cs1)
  let intDigits := signAndRest.2.takeWhile Char.isDigit
  let afterInt := signAndRest.2.dropWhile Char.isDigit
  let fracDigits :=
    match afterInt with
    | '.' :: r2 => r2.takeWhile Char.isDigit
    | _ => []
  if intDigits = [] ∧ fracDigits = [] then none
  else some
    { mant := signAndRest.1 *
        ((digitsToNat intDigits : Int) * (10 : Int) ^ fracDigits.length +
          (digitsToNat fracDigits : Int))
      exp := fracDigits.length }

def jsParseFloat (s : String) : Option JsNumber :=
  jsParseFloatChars s.toList

/-- Decimal rendering of a `JsNumber`, shortest form (no trailing zeros, no
point for integral values), the model of JavaScript `String(number)`. -/
def JsNumber.render (n : JsNumber) : String :=
  let p : Nat := 10 ^ n.exp
  let sign := if n.mant < 0 then "-" else ""
  let a := n.mant.natAbs
  let ip := a / p
  let fracDigits := (toString (p + a % p)).toList.drop 1
  let frac := (fracDigits.reverse.dropWhile (fun c => c == '0')).reverse
  if frac = [] then sign ++ toString ip
  else sign ++ toString ip ++ "." ++ String.mk frac

/-- Model of JavaScript `String(v)` for the values above. -/
def jsToString : JsValue → String
  | .num n => n.render
  | .str s => s
  | .bool b => if b then "true" else "false"
  | .null => "null"

/-- `parseFloat(v)` on an arbitrary value: numbers round-trip through their
string form, booleans and `null` stringify to non-numeric text (`NaN`). -/
def parseFloatVal : JsValue → Option JsNumber
  | .num n => some n
  | .str s => jsParseFloat s
  | .bool _ => none
  | .null => none

/-- `Number.isInteger` applied to a `parseFloat` result (`false` on `NaN`). -/
def numIsInteger : Option JsNumber → Bool
  | some n => n.isInteger
  | none => false

/-- The ISO `yyyy-mm-dd` date format. -/
def isoDateFormat (s : String) : Bool :=
  match splitOnChar '-' s with
  | [y, m, d] =>
    (y.toList.length == 4 && y.toList.all Char.isDigit &&
     m.toList.length == 2 && m.toList.all Char.isDigit &&
     d.toList.length == 2 && d.toList.all Char.isDigit) &&
    (match strToNat? m, strToNat? d with
     | some mv, some dv => 1 ≤ mv && mv ≤ 12 && 1 ≤ dv && dv ≤ 31
     | _, _ => false)
  | _ => false

def monthNames : List String :=
  ["Jan", "Feb", "Mar", "Apr", "May", "Jun", "Jul", "Aug", "Sep", "Oct", "Nov", "Dec"]

/-- The textual `Mon dd, yyyy` date format (e.g. `Jan 15, 2024`). -/
def monthNameDateFormat (s : String) : Bool :=
  match splitOnChar ' ' s with
  | [mon, dayc, y] =>
    monthNames.contains mon &&
    (match dayc.toList.reverse with
     | ',' :: rest =>
       rest ≠ [] && rest.all Char.isDigit &&
         (1 ≤ digitsToNat rest.reverse && digitsToNat rest.reverse ≤ 31)
     | _ => false) &&
    (y.toList.length == 4 && y.toList.all Char.isDigit)
  | _ => false

/-- Model of the JavaScript builtin `Date.parse`, restricted to the ISO
`yyyy-mm-dd` and textual `Mon dd, yyyy` fragments: `true` iff the string
parses to a (non-`NaN`) date.  Only consulted after numeric and boolean
classification have failed. -/
def jsDateParse (s : String) : Bool :=
  isoDateFormat s || monthNameDateFormat s

/-- `inferColumnType` from the schema builder module: classifies a sample of
raw values into one of the six coarse type tags, in the precedence order
integer, number, boolean, date, string. -/
def inferColumnType (values : List JsValue) : String :=
  if values.length = 0 then "unknown"
  else
    let nonNullValues := values.filter (fun v => !(v == JsValue.null))
    if nonNullValues.length = 0 then "unknown"
    else
      let allNumbers := nonNullValues.all (fun v => v.isNum || (parseFloatVal v).isSome)
      let allIntegers := allNumbers && nonNullValues.all (fun v => numIsInteger (parseFloatVal v))
      let allBooleans := nonNullValues.all (fun v =>
        v.isBool || v == JsValue.str "true" || v == JsValue.str "false")
      let allDates := nonNullValues.all (fun v => jsDateParse (jsToString v))
      if allIntegers then "integer"
      else if allNumbers then "number"
      else if allBooleans then "boolean"
      else if allDates then "date"
      else "string"

example : inferColumnType [.int 1, .int 2, .null, .int 4] = "integer" := by decide
example : inferColumnType [.str "2024-01-01", .str "2024-02-15"] = "integer" := by decide
example : inferColumnType [.str "abc", .str "x"] = "string" := by decide
example : inferColumnType [.bool true, .str "false"] = "boolean" := by decide
example : inferColumnType [.int 1, .num { mant := 15, exp := 1 }] = "number" := by decide
example : jsDateParse "2024-01-01" = true := by decide
example : jsParseFloat "2024-01-01" = some { mant := 2024, exp := 0 } := by decide
example : JsNumber.render { mant := 15, exp := 1 } = "1.5" := by decide

/-- Update the first element of a list satisfying `p`: the model of looking an
object up with `Array.prototype.find` and mutating it in place. -/
def updateFirst {α : Type} (p : α → Bool) (f : α → α) : List α → List α
  | [] => []
  | x :: xs => if p x then f x :: xs else x :: updateFirst p f xs

/-- The sample values collected for one column position by
`SchemaBuilder.inferTypesFromData`: the first ten rows' cells at `colIndex`,
skipping rows where the cell is absent (`undefined`). -/
def sampleColumnValues (data : List (List JsValue)) (colIndex : Nat) : List JsValue :=
  (data.take 10).filterMap (fun row => row.get? colIndex)

/-- The per-column body of `SchemaBuilder.inferTypesFromData`: a column whose
type is already known is skipped; otherwise the type is inferred from the
samples, up to five non-null examples are merged in (de-duplicated, capped at
ten) and `isNullable` is set from whether the samples contain `null`. -/
def inferColumnFromSamples (column : ColumnInfo) (sampleValues : List JsValue) : ColumnInfo :=
  if column.type ≠ "unknown" then column
  else
    let c1 := { column with type := inferColumnType sampleValues }
    let oldExamples := c1.examples.getD []
    let nonNullExamples :=
      ((sampleValues.filter (fun v => !(v == JsValue.null))).map jsToString).take 5
    let c2 :=
      if nonNullExamples ≠ [] then
        { c1 with examples := some ((dedupFirst (oldExamples ++ nonNullExamples)).take 10) }
      else { c1 with examples := some oldExamples }
    { c2 with isNullable := sampleValues.any (fun v => v == JsValue.null) }

/-- `SchemaBuilder.inferTypesFromData`: for each name in `columnNames`, find
the first column of the table with that name (case-insensitively) and update
it from the sampled data at the name's index within `columnNames`. -/
def inferTypesFromData (table : TableInfo) (columnNames : List String)
    (data : List (List JsValue)) : TableInfo :=
  let step := fun (cols : List ColumnInfo) (p : Nat × String) =>
    updateFirst (fun c => strLower c.name == strLower p.2)
      (fun c => inferColumnFromSamples c (sampleColumnValues data p.1)) cols
  { table with columns := columnNames.enum.foldl step table.columns }

/-- `SchemaBuilder.ensureColumnExists`: find a column by case-insensitive
name; create it with type `unknown` (nullable by default) if absent.  `genId`
is the uuid supply, `ctr` the next fresh index. -/
def ensureColumnExists (genId : Nat → String) (table : TableInfo)
    (columnName : String) (ctr : Nat) : TableInfo × Nat :=
  match table.columns.find? (fun c => strLower c.name == strLower columnName) with
  | some _ => (table, ctr)
  | none =>
    ({ table with columns := table.columns ++
        [{ id := "col-" ++ genId ctr, name := columnName, type := "unknown",
           isPrimaryKey := false, isForeignKey := false, isNullable := true }] },
     ctr + 1)

/-- Ensure each listed column exists on the table, threading the id supply. -/
def addMissingColumns (genId : Nat → String) (table : TableInfo)
    (columns : List String) (ctr : Nat) : TableInfo × Nat :=
  columns.foldl (fun p colName => ensureColumnExists genId p.1 colName p.2) (table, ctr)

/-- `SchemaBuilder.ensureTableExists`: find a table by case-insensitive name
(first match), creating and appending it when absent, then ensure the listed
columns exist on it.  The table object is aliased from `schema.tables`, so
column additions are visible in the schema. -/
def ensureTableExists (genId : Nat → String) (schema : SchemaCache)
    (tableName : String) (columns : List String) (ctr : Nat) : SchemaCache × Nat :=
  let sameName := fun (t : TableInfo) => strLower t.name == strLower tableName
  match schema.tables.find? sameName with
  | some t0 =>
    let r := addMissingColumns genId t0 columns ctr
    ({ schema with tables := updateFirst sameName (fun _ => r.1) schema.tables }, r.2)
  | none =>
    let r := addMissingColumns genId
      { id := "table-" ++ genId ctr, name := tableName, columns := [] } columns (ctr + 1)
    ({ schema with tables := schema.tables ++ [r.1] }, r.2)

/-- One step of building the `tableColumnMap` of
`SchemaBuilder.learnFromResults`: append the column name under its table key,
keeping first-insertion order of keys (JavaScript `Map` semantics). -/
def insertTableColumn (acc : List (String × List String)) (tn cn : String) :
    List (String × List String) :=
  if acc.any (fun p => p.1 == tn) then
    acc.map (fun p => if p.1 == tn then (p.1, p.2 ++ [cn]) else p)
  else acc ++ [(tn, [cn])]

/-- The `tableColumnMap` of `SchemaBuilder.learnFromResults`: result column
headers of the form `table.column` grouped by table name. -/
def buildTableColumnMap (columns : List String) : List (String × List String) :=
  columns.foldl (fun acc fullColumnName =>
    match splitOnChar '.' fullColumnName with
    | [tn, cn] => insertTableColumn acc (strTrim tn) (strTrim cn)
    | _ => acc) []

/-- `SchemaBuilder.learnFromResults`: group qualified result columns by table,
ensure the tables and columns exist, and infer types from the sampled rows on
the (aliased) table found by name. -/
def learnFromResults (genId : Nat → String) (schema : SchemaCache)
    (columns : List String) (data : List (List JsValue)) (ctr : Nat) :
    SchemaCache × Nat :=
  if columns = [] ∨ data = [] then (schema, ctr)
  else
    (buildTableColumnMap columns).foldl (fun p entry =>
      let r := ensureTableExists genId p.1 entry.1 entry.2 p.2
      let sameName := fun (t : TableInfo) => strLower t.name == strLower entry.1
      let infer := fun (t : TableInfo) => inferTypesFromData t entry.2 data
      ({ r.1 with tables := updateFirst sameName infer r.1.tables }, r.2))
      (schema, ctr)

/-- The inputs of one queued learning task of `SchemaBuilder.learnFromQuery`:
the table/column references extracted from the SQL text (the output of
`extractTablesAndColumnsFromSQL`, in `Object.entries` order, supplied here as
data since the extraction itself is a pure preprocessing of the SQL string)
and the optional result columns and rows. -/
structure LearningArgs where
  tablesAndColumns : List (String × List String)
  resultColumns : List String
  resultData : List (List JsValue)
deriving Repr

/-- One queued learning task of `SchemaBuilder.learnFromQuery`, with the
persistence outcome (`saveOk`) and the clock as environment.  The source
builds `updatedSchema` as a SHALLOW copy `{ ...this.currentSchema }`: its
`tables` array is the same array object as the current snapshot's, so table
and column insertions mutate the in-memory snapshot in place.  On a failed
save (the `catch` branch) `this.currentSchema` is not reassigned, but it
already shares the mutated `tables` array; only `lastUpdated` (written on the
copy) stays unchanged.  Returns the builder's snapshot after the task and the
list of persisted writes. -/
def runLearningTask (genId : Nat → String) (currentSchema : SchemaCache)
    (args : LearningArgs) (saveOk : Bool) (now : Nat) :
    SchemaCache × List SchemaCache :=
  let s1 := args.tablesAndColumns.foldl (fun p entry =>
    ensureTableExists genId p.1 entry.1 entry.2 p.2) (currentSchema, 0)
  let s2 :=
    if args.resultColumns ≠ [] ∧ args.resultData ≠ [] then
      learnFromResults genId s1.1 args.resultColumns args.resultData s1.2
    else s1
  if saveOk then
    let final := { s2.1 with lastUpdated := now }
    (final, [final])
  else
    ({ currentSchema with tables := s2.1.tables }, [])

/-- The mutable state of a `SchemaBuilder` instance. -/
structure BuilderState where
  databaseId : String
  currentSchema : Option SchemaCache
  isBuilding : Bool
  learningQueue : List LearningArgs

/-- `SchemaBuilder.processLearningQueue` run to completion: drain the queue in
FIFO order, one task at a time; `env` supplies each task's persistence outcome
and timestamp. -/
def processLearningQueue (genId : Nat → String) (cur : SchemaCache)
    (tasks : List LearningArgs) (env : Nat → Bool × Nat) :
    SchemaCache × List SchemaCache :=
  tasks.enum.foldl (fun p t =>
    let r := runLearningTask genId p.1 t.2 (env t.1).1 (env t.1).2
    (r.1, p.2 ++ r.2)) (cur, [])

/-- `SchemaBuilder.learnFromQuery`: with no current schema the call logs a
warning and returns without touching the queue or storage; otherwise the task
is appended to the queue and, unless a drain is already running, the queue is
drained to completion. -/
def learnFromQuery (genId : Nat → String) (st : BuilderState)
    (args : LearningArgs) (env : Nat → Bool × Nat) :
    BuilderState × List SchemaCache :=
  match st.currentSchema with
  | none => (st, [])
  | some cur =>
    let queue := st.learningQueue ++ [args]
    if st.isBuilding then ({ st with learningQueue := queue }, [])
    else
      let r := processLearningQueue genId cur queue env
      ({ st with currentSchema := some r.1, learningQueue := [] }, r.2)

/-- Compression options, from `lib/schema/types.ts` (`SchemaCompressionOptions`),
with the caller's partial options already merged over the defaults.  The
numeric fields keep JavaScript truthiness: `0` behaves as an absent limit. -/
structure SchemaCompressionOptions where
  maxTables : Nat
  maxColumnsPerTable : Nat
  includeDescriptions : Bool
  prioritizeReferencedTables : Bool
  includeRelationships : Bool
  maxTokens : Nat
deriving Repr, DecidableEq

/-- `DEFAULT_COMPRESSION_OPTIONS` from the schema compressor module. -/
def DEFAULT_COMPRESSION_OPTIONS : SchemaCompressionOptions :=
  { maxTables := 20
    maxColumnsPerTable := 20
    includeDescriptions := true
    prioritizeReferencedTables := true
    includeRelationships := true
    maxTokens := 4000 }

/-- A column of a compressed schema (`CompressedSchema` in
`lib/schema/types.ts`). -/
structure CompressedColumn where
  name : String
  type : String
  isPrimaryKey : Bool
  isForeignKey : Bool
deriving Repr, DecidableEq

/-- A table of a compressed schema. -/
structure CompressedTable where
  name : String
  columns : List CompressedColumn
deriving Repr, DecidableEq

/-- A relationship of a compressed schema, expressed by names. -/
structure CompressedRel where
  source : String
  sourceColumn : String
  target : String
  targetColumn : String
deriving Repr, DecidableEq

/-- The compressed schema, from `lib/schema/types.ts`. -/
structure CompressedSchema where
  tables : List CompressedTable
  relationships : List CompressedRel
deriving Repr, DecidableEq

/-- The table-priority comparator of `compressSchema` as a total preorder:
`tableSortLe a b` holds iff the comparator returns a non-positive value, i.e.
unless `a` is unreferenced and `b` referenced.  A table is "referenced" when
its lower-cased name occurs literally in `referencedTables`. -/
def tableSortLe (referencedTables : List String) (a b : TableInfo) : Bool :=
  referencedTables.contains (strLower a.name) || !(referencedTables.contains (strLower b.name))

/-- The column-priority comparator of `compressColumns` as a total preorder:
primary keys first, then foreign keys, then the rest. -/
def columnSortLe (a b : ColumnInfo) : Bool :=
  if a.isPrimaryKey && !b.isPrimaryKey then true
  else if !a.isPrimaryKey && b.isPrimaryKey then false
  else if a.isForeignKey && !b.isForeignKey then true
  else if !a.isForeignKey && b.isForeignKey then false
  else true

/-- `compressColumns` from the schema compressor: sort columns key-first with
the stable `Array.prototype.sort` (modelled by insertion sort, which is the
unique stable sort for a total preorder comparator), truncate to the limit and
project to the compressed column shape. -/
def compressColumns (columns : List ColumnInfo) (options : SchemaCompressionOptions) :
    List CompressedColumn :=
  let sorted := List.insertionSort (fun a b => columnSortLe a b) columns
  let limited :=
    if options.maxColumnsPerTable ≠ 0 ∧ options.maxColumnsPerTable < sorted.length then
      sorted.take options.maxColumnsPerTable
    else sorted
  limited.map (fun column =>
    { name := column.name, type := column.type,
      isPrimaryKey := column.isPrimaryKey, isForeignKey := column.isForeignKey })

/-- The line rendered for one compressed column by `schemaToString`. -/
def columnLine (column : CompressedColumn) : String :=
  let keyInfo := if column.isPrimaryKey then "PK" else if column.isForeignKey then "FK" else ""
  "  " ++ column.name ++ " (" ++ column.type ++ ")" ++
    (if keyInfo ≠ "" then " " ++ keyInfo else "")

/-- `schemaToString` from the schema compressor: the flat text rendering used
for token estimation. -/
def schemaToString (schema : CompressedSchema) : String :=
  let tableParts :=
    (schema.tables.map (fun t => ("Table: " ++ t.name) :: t.columns.map columnLine)).flatten
  let parts := tableParts ++
    (if schema.relationships ≠ [] then
      "\nRelationships:" ::
        schema.relationships.map (fun rel =>
          "  " ++ rel.source ++ "." ++ rel.sourceColumn ++ " -> " ++
            rel.target ++ "." ++ rel.targetColumn)
     else [])
  String.intercalate "\n" parts

/-- `estimateTokens`: about four characters per token, rounded up. -/
def estimateTokens (text : String) : Nat :=
  (text.length + 3) / 4

/-- Drop relationships whose source or target table is no longer present, as
done after each table removal in `trimToTokenLimit`. -/
def pruneRelationships (tables : List CompressedTable) (rels : List CompressedRel) :
    List CompressedRel :=
  let tableNames := tables.map (fun t => strLower t.name)
  rels.filter (fun rel =>
    tableNames.contains (strLower rel.source) && tableNames.contains (strLower rel.target))

/-- The body of the table-removal loop of `trimToTokenLimit`, with an explicit
iteration bound: while the estimate exceeds the budget and more than one table
remains, pop the last (least prioritized) table and prune dangling
relationships.  Each iteration removes one table, so any `fuel` at least the
table count makes this exactly the source's `while` loop. -/
def dropTablesLoopFuel : Nat → CompressedSchema → Nat → CompressedSchema
  | 0, schema, _ => schema
  | fuel + 1, schema, maxTokens =>
    if estimateTokens (schemaToString schema) > maxTokens ∧ schema.tables.length > 1 then
      let tables := schema.tables.dropLast
      dropTablesLoopFuel fuel
        { tables := tables, relationships := pruneRelationships tables schema.relationships }
        maxTokens
    else schema

/-- The table-removal loop of `trimToTokenLimit`. -/
def dropTablesLoop (schema : CompressedSchema) (maxTokens : Nat) : CompressedSchema :=
  dropTablesLoopFuel schema.tables.length schema maxTokens

/-- The column-reduction pass of `trimToTokenLimit` on one table: cut to 70%
of the columns (one single pass), but never below the number of key columns.
`Math.floor(length * 0.7)` is modelled as exact decimal arithmetic. -/
def reduceTableColumns (table : CompressedTable) : CompressedTable :=
  let keyCount := (table.columns.filter (fun c => c.isPrimaryKey || c.isForeignKey)).length
  let newColumnCount := Nat.max keyCount (table.columns.length * 7 / 10)
  if newColumnCount < table.columns.length then
    { table with columns := table.columns.take newColumnCount }
  else table

/-- The column-reduction pass of `trimToTokenLimit` over all tables. -/
def reduceColumnsStep (schema : CompressedSchema) : CompressedSchema :=
  { schema with tables := schema.tables.map reduceTableColumns }

/-- The relationship-capping step of `trimToTokenLimit`: when more than ten
relationships are present, keep `max 5 (length * maxTokens / estimate)` of
them.  `Math.floor(length * (maxTokens / estimate))` is modelled as exact
integer arithmetic. -/
def capRelationships (schema : CompressedSchema) (maxTokens estimatedTokens : Nat) :
    CompressedSchema :=
  let newRelCount := Nat.max 5 (schema.relationships.length * maxTokens / estimatedTokens)
  if schema.relationships.length > 10 then
    { schema with relationships := schema.relationships.take newRelCount }
  else schema

def trimToTokenLimit (schema : CompressedSchema) (maxTokens : Nat) : CompressedSchema :=
  let estimatedTokens := estimateTokens (schemaToString schema)
  if estimatedTokens ≤ maxTokens then schema
  else
    let t1 := capRelationships schema maxTokens estimatedTokens
    let t2 := dropTablesLoop t1 maxTokens
    let t3 :=
      if estimateTokens (schemaToString t2) > maxTokens then reduceColumnsStep t2 else t2
    dropTablesLoop t3 maxTokens

/-- The body of `compressSchema` before the final token-budget trim (the
`compressed` value of the source): prioritize referenced tables with the
stable sort, truncate tables and columns, and retain relationships whose
endpoint tables and columns resolve and whose tables survived. -/
def compressSchemaCore (schema : SchemaCache) (referencedTables : List String)
    (options : SchemaCompressionOptions) : CompressedSchema :=
    let tables1 :=
      if options.prioritizeReferencedTables ∧ referencedTables ≠ [] then
        List.insertionSort (fun a b => tableSortLe referencedTables a b) schema.tables
      else schema.tables
    let tables2 :=
      if options.maxTables ≠ 0 ∧ options.maxTables < tables1.length then
        tables1.take options.maxTables
      else tables1
    let compressedTables := tables2.map (fun t =>
      { name := t.name, columns := compressColumns t.columns options : CompressedTable })
    let includedTableNames := compressedTables.map (fun t => strLower t.name)
    let rels :=
      if options.includeRelationships then
        schema.relationships.filterMap (fun rel =>
          match schema.tables.find? (fun t => t.id == rel.sourceTableId),
                schema.tables.find? (fun t => t.id == rel.targetTableId) with
          | some sourceTable, some targetTable =>
            if includedTableNames.contains (strLower sourceTable.name) ∧
               includedTableNames.contains (strLower targetTable.name) then
              match sourceTable.columns.find? (fun c => c.id == rel.sourceColumnId),
                    targetTable.columns.find? (fun c => c.id == rel.targetColumnId) with
              | some sourceColumn, some targetColumn =>
                some { source := sourceTable.name, sourceColumn := sourceColumn.name,
                       target := targetTable.name, targetColumn := targetColumn.name }
              | _, _ => none
            else none
          | _, _ => none)
      else []
    { tables := compressedTables, relationships := rels }

/-- `compressSchema` from the schema compressor: the empty-snapshot guard, the
compression body above, and the final trim to the token budget when one is set
(JavaScript truthiness: a zero budget disables trimming). -/
def compressSchema (schema : SchemaCache) (referencedTables : List String)
    (options : SchemaCompressionOptions) : CompressedSchema :=
  if schema.tables = [] then { tables := [], relationships := [] }
  else
    let compressed := compressSchemaCore schema referencedTables options
    if options.maxTokens ≠ 0 then trimToTokenLimit compressed options.maxTokens
    else compressed

/-- The last element of a list satisfying `p`: the object that a JavaScript
`Map` built from the list resolves a duplicated key to. -/
def lastMatch {α : Type} (p : α → Bool) : List α → Option α
  | [] => none
  | x :: xs => if xs.any p then lastMatch p xs else if p x then some x else none

theorem lastMatch_isSome_of_any {α : Type} (p : α → Bool) (l : List α)
    (h : l.any p = true) : ∃ c, lastMatch p l = some c := by
  induction l with
  | nil => simp at h
  | cons x xs ih =>
    unfold lastMatch
    by_cases hx : xs.any p = true
    · simpa [hx] using ih hx
    · simp only [List.any_cons, Bool.or_eq_true] at h
      rcases h with h | h
      · simp [hx, h]
      · exact absurd h hx

theorem lastMatch_mem {α : Type} (p : α → Bool) (l : List α) (c : α)
    (h : lastMatch p l = some c) : c ∈ l ∧ p c = true := by
  induction l with
  | nil => simp [lastMatch] at h
  | cons x xs ih =>
    unfold lastMatch at h
    by_cases hx : xs.any p = true
    · rw [if_pos hx] at h
      obtain ⟨h1, h2⟩ := ih h
      exact ⟨List.mem_cons_of_mem _ h1, h2⟩
    · rw [if_neg hx] at h
      by_cases hpx : p x = true
      · rw [if_pos hpx] at h
        cases h
        exact ⟨List.mem_cons_self _ _, hpx⟩
      · simp [hpx] at h

theorem lastMatch_append_singleton {α : Type} (p : α → Bool) (l : List α) (a : α) :
    lastMatch p (l ++ [a]) = if p a then some a else lastMatch p l := by
  induction l with
  | nil => simp [lastMatch]
  | cons x xs ih =>
    show lastMatch p (x :: (xs ++ [a])) = _
    unfold lastMatch
    by_cases hpa : p a = true
    · have hany : (xs ++ [a]).any p = true := by simp [List.any_append, hpa]
      rw [if_pos hany, ih, if_pos hpa]
      simp [hpa]
    · have hany : (xs ++ [a]).any p = xs.any p := by
        simp [List.any_append, Bool.eq_false_iff.mpr, hpa]
      rw [hany, ih, if_neg hpa]
      simp [hpa]

theorem any_updateLast_congr {α : Type} (p q : α → Bool) (f : α → α)
    (h : ∀ x, p x = true → q (f x) = q x) (l : List α) :
    (updateLast p f l).any q = l.any q := by
  induction l with
  | nil => rfl
  | cons x xs ih =>
    unfold updateLast
    by_cases hx : xs.any p = true
    · simp [hx, List.any_cons, ih]
    · by_cases hpx : p x = true
      · simp [hx, hpx, List.any_cons, h x hpx]
      · simp [hx, hpx]

theorem lastMatch_updateLast {α : Type} (p : α → Bool) (f : α → α)
    (hpf : ∀ x, p x = true → p (f x) = true) (l : List α) (c : α)
    (h : lastMatch p l = some c) :
    lastMatch p (updateLast p f l) = some (f c) := by
  induction l with
  | nil => simp [lastMatch] at h
  | cons x xs ih =>
    unfold lastMatch at h
    unfold updateLast
    by_cases hx : xs.any p = true
    · rw [if_pos hx] at h
      rw [if_pos hx]
      show lastMatch p (x :: updateLast p f xs) = _
      unfold lastMatch
      have hany : (updateLast p f xs).any p = true := by
        rw [any_updateLast_congr p p f (fun y hy => by rw [hpf y hy, hy]) xs]
        exact hx
      rw [if_pos hany]
      exact ih h
    · rw [if_neg hx] at h
      by_cases hpx : p x = true
      · rw [if_pos hpx] at h
        cases h
        rw [if_neg hx, if_pos hpx]
        show lastMatch p (f c :: xs) = _
        unfold lastMatch
        rw [if_neg hx, if_pos (hpf c hpx)]
      · simp [hpx] at h

theorem lastMatch_updateLast_ne {α : Type} (p q : α → Bool) (f : α → α)
    (hq : ∀ x, p x = true → q x = false) (hqf : ∀ x, p x = true → q (f x) = false)
    (l : List α) :
    lastMatch q (updateLast p f l) = lastMatch q l := by
  induction l with
  | nil => rfl
  | cons x xs ih =>
    unfold updateLast
    by_cases hx : xs.any p = true
    · rw [if_pos hx]
      show lastMatch q (x :: updateLast p f xs) = _
      unfold lastMatch
      have hany : (updateLast p f xs).any q = xs.any q := by
        refine any_updateLast_congr p q f (fun y hy => ?_) xs
        rw [hqf y hy, hq y hy]
      rw [hany]
      by_cases hq2 : xs.any q = true
      · rw [if_pos hq2, if_pos hq2, ih]
      · rw [if_neg hq2, if_neg hq2]
    · rw [if_neg hx]
      by_cases hpx : p x = true
      · rw [if_pos hpx]
        show lastMatch q (f x :: xs) = _
        unfold lastMatch
        rw [hqf x hpx, hq x hpx]
        simp
      · rw [if_neg hpx]

theorem updateLast_eq_of_lastMatch {α : Type} (p : α → Bool) (f : α → α) (l : List α)
    (h : ∀ c, lastMatch p l = some c → f c = c) : updateLast p f l = l := by
  induction l with
  | nil => rfl
  | cons x xs ih =>
    unfold updateLast
    by_cases hx : xs.any p = true
    · rw [if_pos hx]
      have : updateLast p f xs = xs := by
        refine ih (fun c hc => h c ?_)
        unfold lastMatch
        rw [if_pos hx]
        exact hc
      rw [this]
    · rw [if_neg hx]
      by_cases hpx : p x = true
      · rw [if_pos hpx]
        have : f x = x := by
          refine h x ?_
          unfold lastMatch
          rw [if_neg hx, if_pos hpx]
        rw [this]
      · rw [if_neg hpx]

theorem updateLast_map {α β : Type} (p : α → Bool) (f : α → α) (g : α → β)
    (h : ∀ x, p x = true → g (f x) = g x) (l : List α) :
    (updateLast p f l).map g = l.map g := by
  induction l with
  | nil => rfl
  | cons x xs ih =>
    unfold updateLast
    by_cases hx : xs.any p = true
    · simp [hx, ih]
    · by_cases hpx : p x = true
      · simp [hx, hpx, h x hpx]
      · simp [hx, hpx]

theorem lastMatch_of_nodup_ids {α : Type} (idOf : α → String) (l : List α) (x : α)
    (hnodup : (l.map idOf).Nodup) (hx : x ∈ l) :
    lastMatch (fun c => idOf c == idOf x) l = some x := by
  induction l with
  | nil => simp at hx
  | cons y ys ih =>
    simp only [List.map_cons, List.nodup_cons] at hnodup
    unfold lastMatch
    rcases List.mem_cons.mp hx with rfl | hmem
    · have hnone : ys.any (fun c => idOf c == idOf x) = false := by
        rw [List.any_eq_false]
        intro c hc
        simp only [beq_iff_eq]
        intro hcontra
        exact hnodup.1 (hcontra ▸ List.mem_map_of_mem idOf hc)
      rw [hnone]
      simp
    · have hany : ys.any (fun c => idOf c == idOf x) = true := by
        rw [List.any_eq_true]
        exact ⟨x, hmem, by simp⟩
      rw [if_pos hany]
      exact ih hnodup.2 hmem

theorem mem_dedupFirstAux (seen l : List String) (a : String) :
    a ∈ dedupFirstAux seen l ↔ a ∈ l ∧ a ∉ seen := by
  induction l generalizing seen with
  | nil => simp [dedupFirstAux]
  | cons x xs ih =>
    unfold dedupFirstAux
    by_cases hx : x ∈ seen
    · rw [if_pos hx, ih]
      constructor
      · rintro ⟨h1, h2⟩
        exact ⟨List.mem_cons_of_mem _ h1, h2⟩
      · rintro ⟨h1, h2⟩
        rcases List.mem_cons.mp h1 with rfl | h1
        · exact absurd hx h2
        · exact ⟨h1, h2⟩
    · rw [if_neg hx]
      constructor
      · intro h
        rcases List.mem_cons.mp h with rfl | h
        · exact ⟨List.mem_cons_self _ _, hx⟩
        · obtain ⟨h1, h2⟩ := (ih (x :: seen)).mp h
          exact ⟨List.mem_cons_of_mem _ h1,
            fun hc => h2 (List.mem_cons_of_mem _ hc)⟩
      · rintro ⟨h1, h2⟩
        rcases List.mem_cons.mp h1 with rfl | h1
        · exact List.mem_cons_self _ _
        · by_cases hax : a = x
          · subst hax; exact List.mem_cons_self _ _
          · refine List.mem_cons_of_mem _ ((ih (x :: seen)).mpr ⟨h1, fun hc => ?_⟩)
            rcases List.mem_cons.mp hc with h | h
            · exact hax h
            · exact h2 h

theorem dedupFirstAux_nodup (seen l : List String) : (dedupFirstAux seen l).Nodup := by
  induction l generalizing seen with
  | nil => exact List.nodup_nil
  | cons x xs ih =>
    unfold dedupFirstAux
    by_cases hx : x ∈ seen
    · rw [if_pos hx]; exact ih seen
    · rw [if_neg hx]
      refine List.nodup_cons.mpr ⟨fun hc => ?_, ih (x :: seen)⟩
      exact ((mem_dedupFirstAux _ _ _).mp hc).2 (List.mem_cons_self _ _)

theorem dedupFirstAux_sublist (seen l : List String) :
    (dedupFirstAux seen l).Sublist l := by
  induction l generalizing seen with
  | nil => exact List.Sublist.refl _
  | cons x xs ih =>
    unfold dedupFirstAux
    by_cases hx : x ∈ seen
    · rw [if_pos hx]; exact (ih seen).cons x
    · rw [if_neg hx]; exact (ih (x :: seen)).cons₂ x

theorem dedupFirstAux_eq_self (seen l : List String) (hn : l.Nodup)
    (hd : ∀ x ∈ l, x ∉ seen) : dedupFirstAux seen l = l := by
  induction l generalizing seen with
  | nil => rfl
  | cons x xs ih =>
    unfold dedupFirstAux
    rw [if_neg (hd x (List.mem_cons_self _ _))]
    have hn2 := List.nodup_cons.mp hn
    congr 1
    refine ih (x :: seen) hn2.2 (fun y hy => ?_)
    intro hc
    rcases List.mem_cons.mp hc with rfl | hc
    · exact hn2.1 hy
    · exact hd y (List.mem_cons_of_mem _ hy) hc

theorem dedupFirstAux_eq_nil (seen l : List String)
    (h : ∀ x ∈ l, x ∈ seen) : dedupFirstAux seen l = [] := by
  induction l generalizing seen with
  | nil => rfl
  | cons x xs ih =>
    unfold dedupFirstAux
    rw [if_pos (h x (List.mem_cons_self _ _))]
    exact ih seen (fun y hy => h y (List.mem_cons_of_mem _ hy))

theorem dedupFirstAux_append_absorb (X Y : List String) (seen : List String)
    (hn : X.Nodup) (hd : ∀ x ∈ X, x ∉ seen) (hY : ∀ y ∈ Y, y ∈ X ∨ y ∈ seen) :
    dedupFirstAux seen (X ++ Y) = X := by
  induction X generalizing seen with
  | nil =>
    refine dedupFirstAux_eq_nil seen Y (fun y hy => ?_)
    rcases hY y hy with h | h
    · simp at h
    · exact h
  | cons x xs ih =>
    show dedupFirstAux seen (x :: (xs ++ Y)) = _
    unfold dedupFirstAux
    rw [if_neg (hd x (List.mem_cons_self _ _))]
    have hn2 := List.nodup_cons.mp hn
    congr 1
    refine ih (x :: seen) hn2.2 (fun y hy => ?_) (fun y hy => ?_)
    · intro hc
      rcases List.mem_cons.mp hc with rfl | hc
      · exact hn2.1 hy
      · exact hd y (List.mem_cons_of_mem _ hy) hc
    · rcases hY y hy with h | h
      · rcases List.mem_cons.mp h with rfl | h
        · exact Or.inr (List.mem_cons_self _ _)
        · exact Or.inl h
      · exact Or.inr (List.mem_cons_of_mem _ h)

theorem dedupFirst_nodup (l : List String) : (dedupFirst l).Nodup :=
  dedupFirstAux_nodup [] l

theorem dedupFirst_sublist (l : List String) : (dedupFirst l).Sublist l :=
  dedupFirstAux_sublist [] l

theorem mem_dedupFirst (l : List String) (a : String) : a ∈ dedupFirst l ↔ a ∈ l := by
  rw [dedupFirst, mem_dedupFirstAux]
  simp

theorem dedupFirst_eq_self (l : List String) (hn : l.Nodup) : dedupFirst l = l :=
  dedupFirstAux_eq_self [] l hn (by simp)

theorem dedupFirst_append_absorb (X Y : List String) (hn : X.Nodup)
    (hY : ∀ y ∈ Y, y ∈ X) : dedupFirst (X ++ Y) = X :=
  dedupFirstAux_append_absorb X Y [] hn (by simp) (fun y hy => Or.inl (hY y hy))

theorem mergeColDescriptionStep_fields (e n : ColumnInfo) :
    (mergeColDescriptionStep e n).id = e.id ∧
    (mergeColDescriptionStep e n).name = e.name ∧
    (mergeColDescriptionStep e n).type = e.type ∧
    (mergeColDescriptionStep e n).isPrimaryKey = e.isPrimaryKey ∧
    (mergeColDescriptionStep e n).isForeignKey = e.isForeignKey ∧
    (mergeColDescriptionStep e n).isNullable = e.isNullable ∧
    (mergeColDescriptionStep e n).examples = e.examples ∧
    (mergeColDescriptionStep e n).description =
      (if n.description ≠ "" ∧ e.description = "" then n.description else e.description) := by
  unfold mergeColDescriptionStep
  split <;> simp

theorem mergeColTypeStep_fields (e n : ColumnInfo) :
    (mergeColTypeStep e n).id = e.id ∧
    (mergeColTypeStep e n).name = e.name ∧
    (mergeColTypeStep e n).description = e.description ∧
    (mergeColTypeStep e n).isPrimaryKey = e.isPrimaryKey ∧
    (mergeColTypeStep e n).isForeignKey = e.isForeignKey ∧
    (mergeColTypeStep e n).isNullable = e.isNullable ∧
    (mergeColTypeStep e n).examples = e.examples ∧
    (mergeColTypeStep e n).type =
      (if e.type = "unknown" ∧ n.type ≠ "unknown" then n.type else e.type) := by
  unfold mergeColTypeStep
  split <;> simp

theorem mergeColPrimaryKeyStep_fields (e n : ColumnInfo) :
    (mergeColPrimaryKeyStep e n).id = e.id ∧
    (mergeColPrimaryKeyStep e n).name = e.name ∧
    (mergeColPrimaryKeyStep e n).description = e.description ∧
    (mergeColPrimaryKeyStep e n).type = e.type ∧
    (mergeColPrimaryKeyStep e n).isForeignKey = e.isForeignKey ∧
    (mergeColPrimaryKeyStep e n).isNullable = e.isNullable ∧
    (mergeColPrimaryKeyStep e n).examples = e.examples ∧
    (mergeColPrimaryKeyStep e n).isPrimaryKey = (e.isPrimaryKey || n.isPrimaryKey) := by
  unfold mergeColPrimaryKeyStep
  split <;> simp_all

theorem mergeColForeignKeyStep_fields (e n : ColumnInfo) :
    (mergeColForeignKeyStep e n).id = e.id ∧
    (mergeColForeignKeyStep e n).name = e.name ∧
    (mergeColForeignKeyStep e n).description = e.description ∧
    (mergeColForeignKeyStep e n).type = e.type ∧
    (mergeColForeignKeyStep e n).isPrimaryKey = e.isPrimaryKey ∧
    (mergeColForeignKeyStep e n).isNullable = e.isNullable ∧
    (mergeColForeignKeyStep e n).examples = e.examples ∧
    (mergeColForeignKeyStep e n).isForeignKey = (e.isForeignKey || n.isForeignKey) := by
  unfold mergeColForeignKeyStep
  split <;> simp_all

theorem mergeColNullableStep_fields (e n : ColumnInfo) :
    (mergeColNullableStep e n).id = e.id ∧
    (mergeColNullableStep e n).name = e.name ∧
    (mergeColNullableStep e n).description = e.description ∧
    (mergeColNullableStep e n).type = e.type ∧
    (mergeColNullableStep e n).isPrimaryKey = e.isPrimaryKey ∧
    (mergeColNullableStep e n).isForeignKey = e.isForeignKey ∧
    (mergeColNullableStep e n).examples = e.examples ∧
    (mergeColNullableStep e n).isNullable = (e.isNullable || n.isNullable) := by
  unfold mergeColNullableStep
  split
  case isTrue h => simp_all
  case isFalse h =>
    refine ⟨rfl, rfl, rfl, rfl, rfl, rfl, rfl, ?_⟩
    by_cases he : e.isNullable <;> by_cases hn : n.isNullable <;> simp_all

theorem mergeColExamplesStep_fields (e n : ColumnInfo) :
    (mergeColExamplesStep e n).id = e.id ∧
    (mergeColExamplesStep e n).name = e.name ∧
    (mergeColExamplesStep e n).description = e.description ∧
    (mergeColExamplesStep e n).type = e.type ∧
    (mergeColExamplesStep e n).isPrimaryKey = e.isPrimaryKey ∧
    (mergeColExamplesStep e n).isForeignKey = e.isForeignKey ∧
    (mergeColExamplesStep e n).isNullable = e.isNullable ∧
    (mergeColExamplesStep e n).examples =
      (match n.examples with
       | none => e.examples
       | some newEx =>
         if newEx = [] then e.examples
         else
           match e.examples with
           | none => some newEx
           | some oldEx => some (dedupFirst (oldEx ++ newEx))) := by
  obtain ⟨eid, enm, ety, eds, epk, efk, enl, eex⟩ := e
  obtain ⟨nid, nnm, nty, nds, npk, nfk, nnl, nex⟩ := n
  unfold mergeColExamplesStep
  rcases nex with _ | l
  · simp
  · rcases eex with _ | m <;> by_cases hl : l = [] <;> simp_all

theorem mergeColumnInfo_id (e n : ColumnInfo) : (mergeColumnInfo e n).id = e.id := by
  unfold mergeColumnInfo
  rw [(mergeColExamplesStep_fields _ _).1, (mergeColNullableStep_fields _ _).1,
    (mergeColForeignKeyStep_fields _ _).1, (mergeColPrimaryKeyStep_fields _ _).1,
    (mergeColTypeStep_fields _ _).1, (mergeColDescriptionStep_fields _ _).1]

theorem mergeColumnInfo_name (e n : ColumnInfo) : (mergeColumnInfo e n).name = e.name := by
  unfold mergeColumnInfo
  rw [(mergeColExamplesStep_fields _ _).2.1, (mergeColNullableStep_fields _ _).2.1,
    (mergeColForeignKeyStep_fields _ _).2.1, (mergeColPrimaryKeyStep_fields _ _).2.1,
    (mergeColTypeStep_fields _ _).2.1, (mergeColDescriptionStep_fields _ _).2.1]

theorem mergeColumnInfo_description (e n : ColumnInfo) :
    (mergeColumnInfo e n).description =
      if n.description ≠ "" ∧ e.description = "" then n.description else e.description := by
  unfold mergeColumnInfo
  rw [(mergeColExamplesStep_fields _ _).2.2.1, (mergeColNullableStep_fields _ _).2.2.1,
    (mergeColForeignKeyStep_fields _ _).2.2.1, (mergeColPrimaryKeyStep_fields _ _).2.2.1,
    (mergeColTypeStep_fields _ _).2.2.1, (mergeColDescriptionStep_fields _ _).2.2.2.2.2.2.2]

theorem mergeColumnInfo_type (e n : ColumnInfo) :
    (mergeColumnInfo e n).type =
      if e.type = "unknown" ∧ n.type ≠ "unknown" then n.type else e.type := by
  unfold mergeColumnInfo
  rw [(mergeColExamplesStep_fields _ _).2.2.2.1, (mergeColNullableStep_fields _ _).2.2.2.1,
    (mergeColForeignKeyStep_fields _ _).2.2.2.1, (mergeColPrimaryKeyStep_fields _ _).2.2.2.1,
    (mergeColTypeStep_fields _ _).2.2.2.2.2.2.2,
    (mergeColDescriptionStep_fields _ _).2.2.1]

theorem mergeColumnInfo_isPrimaryKey (e n : ColumnInfo) :
    (mergeColumnInfo e n).isPrimaryKey = (e.isPrimaryKey || n.isPrimaryKey) := by
  unfold mergeColumnInfo
  rw [(mergeColExamplesStep_fields _ _).2.2.2.2.1, (mergeColNullableStep_fields _ _).2.2.2.2.1,
    (mergeColForeignKeyStep_fields _ _).2.2.2.2.1,
    (mergeColPrimaryKeyStep_fields _ _).2.2.2.2.2.2.2,
    (mergeColTypeStep_fields _ _).2.2.2.1, (mergeColDescriptionStep_fields _ _).2.2.2.1]

theorem mergeColumnInfo_isForeignKey (e n : ColumnInfo) :
    (mergeColumnInfo e n).isForeignKey = (e.isForeignKey || n.isForeignKey) := by
  unfold mergeColumnInfo
  rw [(mergeColExamplesStep_fields _ _).2.2.2.2.2.1, (mergeColNullableStep_fields _ _).2.2.2.2.2.1,
    (mergeColForeignKeyStep_fields _ _).2.2.2.2.2.2.2,
    (mergeColPrimaryKeyStep_fields _ _).2.2.2.2.1,
    (mergeColTypeStep_fields _ _).2.2.2.2.1, (mergeColDescriptionStep_fields _ _).2.2.2.2.1]

theorem mergeColumnInfo_isNullable (e n : ColumnInfo) :
    (mergeColumnInfo e n).isNullable = (e.isNullable || n.isNullable) := by
  unfold mergeColumnInfo
  rw [(mergeColExamplesStep_fields _ _).2.2.2.2.2.2.1,
    (mergeColNullableStep_fields _ _).2.2.2.2.2.2.2,
    (mergeColForeignKeyStep_fields _ _).2.2.2.2.2.1,
    (mergeColPrimaryKeyStep_fields _ _).2.2.2.2.2.1,
    (mergeColTypeStep_fields _ _).2.2.2.2.2.1, (mergeColDescriptionStep_fields _ _).2.2.2.2.2.1]

theorem mergeColumnInfo_examples (e n : ColumnInfo) :
    (mergeColumnInfo e n).examples =
      match n.examples with
      | none => e.examples
      | some newEx =>
        if newEx = [] then e.examples
        else
          match e.examples with
          | none => some newEx
          | some oldEx => some (dedupFirst (oldEx ++ newEx)) := by
  unfold mergeColumnInfo
  rw [(mergeColExamplesStep_fields _ _).2.2.2.2.2.2.2,
    (mergeColNullableStep_fields _ _).2.2.2.2.2.2.1,
    (mergeColForeignKeyStep_fields _ _).2.2.2.2.2.2.1,
    (mergeColPrimaryKeyStep_fields _ _).2.2.2.2.2.2.1,
    (mergeColTypeStep_fields _ _).2.2.2.2.2.2.1,
    (mergeColDescriptionStep_fields _ _).2.2.2.2.2.2.1]

theorem columnInfoExt (a b : ColumnInfo) (h1 : a.id = b.id) (h2 : a.name = b.name)
    (h3 : a.type = b.type) (h4 : a.description = b.description)
    (h5 : a.isPrimaryKey = b.isPrimaryKey) (h6 : a.isForeignKey = b.isForeignKey)
    (h7 : a.isNullable = b.isNullable) (h8 : a.examples = b.examples) : a = b := by
  cases a; cases b; simp_all

theorem tableInfoExt (a b : TableInfo) (h1 : a.id = b.id) (h2 : a.name = b.name)
    (h3 : a.description = b.description) (h4 : a.columns = b.columns) : a = b := by
  cases a; cases b; simp_all

/-- A column `c` absorbs an incoming column `nc` when merging `nc` into `c`
changes nothing: every piece of information in `nc` is already present. -/
def ColumnAbsorbs (c nc : ColumnInfo) : Prop :=
  (nc.description ≠ "" → c.description ≠ "") ∧
  (nc.type ≠ "unknown" → c.type ≠ "unknown") ∧
  (nc.isPrimaryKey = true → c.isPrimaryKey = true) ∧
  (nc.isForeignKey = true → c.isForeignKey = true) ∧
  (nc.isNullable = true → c.isNullable = true) ∧
  (∀ l, nc.examples = some l → l ≠ [] → ∃ m, c.examples = some m ∧ m.Nodup ∧ ∀ x ∈ l, x ∈ m)

theorem mergeColumnInfo_eq_of_absorbs (c nc : ColumnInfo) (h : ColumnAbsorbs c nc) :
    mergeColumnInfo c nc = c := by
  obtain ⟨h1, h2, h3, h4, h5, h6⟩ := h
  apply columnInfoExt
  · exact mergeColumnInfo_id c nc
  · exact mergeColumnInfo_name c nc
  · rw [mergeColumnInfo_type, if_neg]
    rintro ⟨hct, hnt⟩
    exact h2 hnt hct
  · rw [mergeColumnInfo_description, if_neg]
    rintro ⟨hnd, hcd⟩
    exact h1 hnd hcd
  · rw [mergeColumnInfo_isPrimaryKey]
    cases hpk : nc.isPrimaryKey
    · simp
    · simp [h3 hpk]
  · rw [mergeColumnInfo_isForeignKey]
    cases hfk : nc.isForeignKey
    · simp
    · simp [h4 hfk]
  · rw [mergeColumnInfo_isNullable]
    cases hnl : nc.isNullable
    · simp
    · simp [h5 hnl]
  · rw [mergeColumnInfo_examples]
    rcases hne : nc.examples with _ | l
    · rfl
    · by_cases hl : l = []
      · simp [hl]
      · obtain ⟨m, hm, hmn, hsub⟩ := h6 l hne hl
        dsimp only
        rw [if_neg hl, hm]
        dsimp only
        rw [dedupFirst_append_absorb m l hmn hsub]

theorem columnAbsorbs_after_merge (c nc : ColumnInfo)
    (hex : ∀ l, nc.examples = some l → l.Nodup) :
    ColumnAbsorbs (mergeColumnInfo c nc) nc := by
  refine ⟨?_, ?_, ?_, ?_, ?_, ?_⟩
  · intro hnd
    rw [mergeColumnInfo_description]
    split
    · exact hnd
    · rename_i hcond
      intro hc
      exact hcond ⟨hnd, hc⟩
  · intro hnt
    rw [mergeColumnInfo_type]
    split
    · exact hnt
    · rename_i hcond
      intro hc
      exact hcond ⟨hc, hnt⟩
  · intro hpk
    rw [mergeColumnInfo_isPrimaryKey, hpk]
    simp
  · intro hfk
    rw [mergeColumnInfo_isForeignKey, hfk]
    simp
  · intro hnl
    rw [mergeColumnInfo_isNullable, hnl]
    simp
  · intro l hl hlne
    rw [mergeColumnInfo_examples, hl]
    dsimp only
    rw [if_neg hlne]
    rcases c.examples with _ | m
    · exact ⟨l, rfl, hex l hl, fun x hx => hx⟩
    · refine ⟨dedupFirst (m ++ l), rfl, dedupFirst_nodup _, fun x hx => ?_⟩
      exact (mem_dedupFirst _ _).mpr (List.mem_append.mpr (Or.inr hx))

theorem columnAbsorbs_self (nc : ColumnInfo)
    (hex : ∀ l, nc.examples = some l → l.Nodup) : ColumnAbsorbs nc nc :=
  ⟨fun h => h, fun h => h, fun h => h, fun h => h, fun h => h,
    fun l hl _ => ⟨l, hl, hex l hl, fun _ hx => hx⟩⟩

theorem mergeTableInfo_id (t nt : TableInfo) : (mergeTableInfo t nt).id = t.id := by
  simp only [mergeTableInfo]
  split <;> rfl

theorem mergeTableInfo_name (t nt : TableInfo) : (mergeTableInfo t nt).name = t.name := by
  simp only [mergeTableInfo]
  split <;> rfl

theorem mergeTableInfo_description (t nt : TableInfo) :
    (mergeTableInfo t nt).description =
      if nt.description ≠ "" ∧ t.description = "" then nt.description else t.description := by
  simp only [mergeTableInfo]
  split <;> simp_all

theorem mergeTableInfo_columns (t nt : TableInfo) :
    (mergeTableInfo t nt).columns =
      nt.columns.foldl (fun acc newColumn =>
        if newColumn.id ∈ t.columns.map (fun c => c.id) then
          updateLast (fun c => c.id == newColumn.id)
            (fun c => mergeColumnInfo c newColumn) acc
        else acc ++ [newColumn]) t.columns := by
  simp only [mergeTableInfo]
  split <;> rfl

theorem foldUpsert_map_id {α : Type} (idOf : α → String) (mergeF : α → α → α)
    (hid : ∀ c x, idOf (mergeF c x) = idOf c)
    (origIds : List String) (step : List α → α → List α)
    (hstep : ∀ acc2 x, step acc2 x =
      if idOf x ∈ origIds then
        updateLast (fun c => idOf c == idOf x) (fun c => mergeF c x) acc2
      else acc2 ++ [x])
    (todo acc : List α) :
    (todo.foldl step acc).map idOf =
      acc.map idOf ++ (todo.filter (fun x => idOf x ∉ origIds)).map idOf := by
  induction todo generalizing acc with
  | nil => simp
  | cons x xs ih =>
    rw [List.foldl_cons, List.filter_cons, hstep]
    by_cases hx : idOf x ∈ origIds
    · rw [if_pos hx]
      have hd : decide (idOf x ∉ origIds) = false := by simp [hx]
      rw [hd]
      rw [ih]
      congr 1
      exact updateLast_map _ _ idOf (fun y _ => hid y x) acc
    · rw [if_neg hx]
      have hd : decide (idOf x ∉ origIds) = true := by simp [hx]
      rw [hd]
      rw [ih]
      simp

theorem foldUpsert_spec {α : Type} (idOf : α → String) (mergeF : α → α → α)
    (Abs : α → α → Prop) (H : α → Prop)
    (hid : ∀ c x, idOf (mergeF c x) = idOf c)
    (hestab : ∀ c x, H x → Abs (mergeF c x) x)
    (hself : ∀ x, H x → Abs x x)
    (origIds : List String) (step : List α → α → List α)
    (hstep : ∀ acc2 x, step acc2 x =
      if idOf x ∈ origIds then
        updateLast (fun c => idOf c == idOf x) (fun c => mergeF c x) acc2
      else acc2 ++ [x])
    (todo acc : List α)
    (hnodup : (todo.map idOf).Nodup)
    (hH : ∀ x ∈ todo, H x)
    (hsub : ∀ i ∈ origIds, i ∈ acc.map idOf) :
    (∀ x ∈ todo, ∃ c,
      lastMatch (fun c2 => idOf c2 == idOf x) (todo.foldl step acc) = some c ∧ Abs c x) ∧
    (∀ j : String, (∀ x ∈ todo, idOf x ≠ j) →
      lastMatch (fun c2 => idOf c2 == j) (todo.foldl step acc) =
        lastMatch (fun c2 => idOf c2 == j) acc) ∧
    (∀ i ∈ acc.map idOf, i ∈ (todo.foldl step acc).map idOf) := by
  induction todo generalizing acc with
  | nil => exact ⟨fun x hx => absurd hx (List.not_mem_nil x), fun j _ => rfl, fun i hi => hi⟩
  | cons x xs ih =>
    simp only [List.map_cons, List.nodup_cons] at hnodup
    have hstep_sub : ∀ i ∈ acc.map idOf, i ∈ (step acc x).map idOf := by
      intro i hi
      rw [hstep]
      by_cases hx : idOf x ∈ origIds
      · rw [if_pos hx, updateLast_map _ _ idOf (fun y _ => hid y x) acc]
        exact hi
      · rw [if_neg hx, List.map_append]
        exact List.mem_append.mpr (Or.inl hi)
    have hsub2 : ∀ i ∈ origIds, i ∈ (step acc x).map idOf :=
      fun i hi => hstep_sub i (hsub i hi)
    obtain ⟨ih1, ih2, ih3⟩ := ih (step acc x) hnodup.2
      (fun y hy => hH y (List.mem_cons_of_mem _ hy)) hsub2
    have hfreshx : ∀ y ∈ xs, idOf y ≠ idOf x := by
      intro y hy hc
      exact hnodup.1 (hc ▸ List.mem_map_of_mem idOf hy)
    have hstepx : ∃ c, lastMatch (fun c2 => idOf c2 == idOf x) (step acc x) = some c ∧ Abs c x := by
      rw [hstep]
      by_cases hx : idOf x ∈ origIds
      · rw [if_pos hx]
        have hany : acc.any (fun c2 => idOf c2 == idOf x) = true := by
          rw [List.any_eq_true]
          obtain ⟨c0, hc0, hc0id⟩ := List.mem_map.mp (hsub (idOf x) hx)
          exact ⟨c0, hc0, by simp [hc0id]⟩
        obtain ⟨c0, hc0⟩ := lastMatch_isSome_of_any _ _ hany
        refine ⟨mergeF c0 x, ?_, hestab c0 x (hH x (List.mem_cons_self _ _))⟩
        exact lastMatch_updateLast _ _ (fun y hy => by
          simp only [beq_iff_eq] at hy ⊢
          rw [hid y x, hy]) acc c0 hc0
      · rw [if_neg hx, lastMatch_append_singleton]
        refine ⟨x, ?_, hself x (hH x (List.mem_cons_self _ _))⟩
        simp
    refine ⟨?_, ?_, ?_⟩
    · intro y hy
      rcases List.mem_cons.mp hy with rfl | hy2
      · obtain ⟨c, hc, habs⟩ := hstepx
        refine ⟨c, ?_, habs⟩
        rw [List.foldl_cons, ih2 (idOf y) hfreshx]
        exact hc
      · rw [List.foldl_cons]
        exact ih1 y hy2
    · intro j hj
      rw [List.foldl_cons, ih2 j (fun y hy => hj y (List.mem_cons_of_mem _ hy))]
      rw [hstep]
      by_cases hx : idOf x ∈ origIds
      · rw [if_pos hx]
        refine lastMatch_updateLast_ne _ _ _ (fun y hy => ?_) (fun y hy => ?_) acc
        · simp only [beq_iff_eq] at hy ⊢
          rw [hy]
          exact beq_eq_false_iff_ne.mpr (hj x (List.mem_cons_self _ _))
        · simp only [beq_iff_eq] at hy ⊢
          rw [hid y x, hy]
          exact beq_eq_false_iff_ne.mpr (hj x (List.mem_cons_self _ _))
      · rw [if_neg hx, lastMatch_append_singleton]
        rw [if_neg]
        simp only [beq_iff_eq]
        exact hj x (List.mem_cons_self _ _)
    · intro i hi
      rw [List.foldl_cons]
      exact ih3 i (hstep_sub i hi)

theorem foldUpsert_identity {α : Type} (idOf : α → String) (mergeF : α → α → α)
    (origIds : List String) (step : List α → α → List α)
    (hstep : ∀ acc2 x, step acc2 x =
      if idOf x ∈ origIds then
        updateLast (fun c => idOf c == idOf x) (fun c => mergeF c x) acc2
      else acc2 ++ [x])
    (todo M : List α)
    (h : ∀ x ∈ todo, idOf x ∈ origIds ∧
      ∀ c, lastMatch (fun c2 => idOf c2 == idOf x) M = some c → mergeF c x = c) :
    todo.foldl step M = M := by
  induction todo with
  | nil => rfl
  | cons x xs ih =>
    rw [List.foldl_cons, hstep, if_pos (h x (List.mem_cons_self _ _)).1]
    rw [updateLast_eq_of_lastMatch _ _ M (h x (List.mem_cons_self _ _)).2]
    exact ih (fun y hy => h y (List.mem_cons_of_mem _ hy))

/-- A table `t` absorbs an incoming table `nt` when merging `nt` into `t`
changes nothing: the description is covered and every incoming column is
absorbed by the column its id resolves to. -/
def TableAbsorbs (t nt : TableInfo) : Prop :=
  (nt.description ≠ "" → t.description ≠ "") ∧
  ∀ nc ∈ nt.columns, ∃ c,
    lastMatch (fun c2 => c2.id == nc.id) t.columns = some c ∧ ColumnAbsorbs c nc

/-- The well-formedness of an incoming table required for idempotence: no
duplicated column ids and duplicate-free example lists. -/
def WellFormedTable (t : TableInfo) : Prop :=
  (t.columns.map (fun c => c.id)).Nodup ∧
  ∀ c ∈ t.columns, (c.examples.getD []).Nodup

theorem nodup_examples_of_getD {c : ColumnInfo} (h : (c.examples.getD []).Nodup) :
    ∀ l, c.examples = some l → l.Nodup := by
  intro l hl
  rw [hl] at h
  simpa using h

theorem mergeTableInfo_eq_of_absorbs (t nt : TableInfo) (h : TableAbsorbs t nt) :
    mergeTableInfo t nt = t := by
  apply tableInfoExt
  · exact mergeTableInfo_id t nt
  · exact mergeTableInfo_name t nt
  · rw [mergeTableInfo_description, if_neg]
    rintro ⟨hnd, htd⟩
    exact h.1 hnd htd
  · rw [mergeTableInfo_columns]
    refine foldUpsert_identity (fun c => c.id) (fun c nc => mergeColumnInfo c nc)
      (t.columns.map (fun c => c.id)) _ (fun _ _ => rfl) nt.columns t.columns
      (fun nc hnc => ?_)
    obtain ⟨c, hlm, habs⟩ := h.2 nc hnc
    obtain ⟨hcmem, hcp⟩ := lastMatch_mem _ _ _ hlm
    refine ⟨?_, fun c2 hc2 => ?_⟩
    · have hceq : c.id = nc.id := by simpa using hcp
      have hmm := List.mem_map_of_mem (fun c => c.id) hcmem
      simp only at hmm
      rw [hceq] at hmm
      exact hmm
    · rw [hlm] at hc2
      cases hc2
      exact mergeColumnInfo_eq_of_absorbs _ _ habs

theorem tableAbsorbs_after_merge (t nt : TableInfo) (h : WellFormedTable nt) :
    TableAbsorbs (mergeTableInfo t nt) nt := by
  constructor
  · intro hnd
    rw [mergeTableInfo_description]
    split
    · exact hnd
    · rename_i hcond
      intro hc
      exact hcond ⟨hnd, hc⟩
  · intro nc hnc
    rw [mergeTableInfo_columns]
    refine (foldUpsert_spec (fun c => c.id) (fun c x => mergeColumnInfo c x)
      ColumnAbsorbs (fun x => (x.examples.getD []).Nodup)
      (fun c x => mergeColumnInfo_id c x)
      (fun c x hx => columnAbsorbs_after_merge c x (nodup_examples_of_getD hx))
      (fun x hx => columnAbsorbs_self x (nodup_examples_of_getD hx))
      (t.columns.map (fun c => c.id)) _ (fun _ _ => rfl)
      nt.columns t.columns h.1 (fun x hx => h.2 x hx) (fun i hi => hi)).1 nc hnc

theorem tableAbsorbs_self (nt : TableInfo) (h : WellFormedTable nt) :
    TableAbsorbs nt nt :=
  ⟨fun hd => hd, fun nc hnc =>
    ⟨nc, lastMatch_of_nodup_ids (fun c => c.id) nt.columns nc h.1 hnc,
      columnAbsorbs_self nc (nodup_examples_of_getD (h.2 nc hnc))⟩⟩

theorem mergeWithExistingSchema_tables (S O : SchemaCache) (now : Nat) :
    (mergeWithExistingSchema S O now).tables =
      O.tables.foldl (fun acc newTable =>
        if newTable.id ∈ S.tables.map (fun t => t.id) then
          updateLast (fun t => t.id == newTable.id)
            (fun t => mergeTableInfo t newTable) acc
        else acc ++ [newTable]) S.tables := rfl

theorem mergeWithExistingSchema_relationships (S O : SchemaCache) (now : Nat) :
    (mergeWithExistingSchema S O now).relationships =
      S.relationships ++
        O.relationships.filter
          (fun r => r.id ∉ S.relationships.map (fun r2 => r2.id)) := rfl

theorem mergeWithExistingSchema_databaseId (S O : SchemaCache) (now : Nat) :
    (mergeWithExistingSchema S O now).databaseId = S.databaseId := rfl

/-- C4 (amended): merging the same observation twice yields the same snapshot
content as merging it once — for observations whose table ids are unique and
whose columns carry unique ids and duplicate-free example lists.  (Without
these conditions the aliasing of appended tables breaks idempotence; see the
counterexample.) -/
theorem mergeWithExistingSchema_idempotent (S O : SchemaCache) (t1 t2 : Nat)
    (hids : (O.tables.map (fun t => t.id)).Nodup)
    (hwf : ∀ t ∈ O.tables, WellFormedTable t) :
    (mergeWithExistingSchema (mergeWithExistingSchema S O t1) O t2).tables =
      (mergeWithExistingSchema S O t1).tables ∧
    (mergeWithExistingSchema (mergeWithExistingSchema S O t1) O t2).relationships =
      (mergeWithExistingSchema S O t1).relationships ∧
    (mergeWithExistingSchema (mergeWithExistingSchema S O t1) O t2).databaseId =
      (mergeWithExistingSchema S O t1).databaseId := by
  have hspec := foldUpsert_spec (fun t => t.id) (fun t nt => mergeTableInfo t nt)
    TableAbsorbs WellFormedTable
    (fun c x => mergeTableInfo_id c x)
    (fun c x hx => tableAbsorbs_after_merge c x hx)
    (fun x hx => tableAbsorbs_self x hx)
    (S.tables.map (fun t => t.id))
    (fun acc newTable =>
      if newTable.id ∈ S.tables.map (fun t => t.id) then
        updateLast (fun t => t.id == newTable.id)
          (fun t => mergeTableInfo t newTable) acc
      else acc ++ [newTable])
    (fun _ _ => rfl)
    O.tables S.tables hids hwf (fun i hi => hi)
  refine ⟨?_, ?_, rfl⟩
  · rw [mergeWithExistingSchema_tables]
    refine foldUpsert_identity (fun t => t.id) (fun t nt => mergeTableInfo t nt)
      ((mergeWithExistingSchema S O t1).tables.map (fun t => t.id))
      (fun acc newTable =>
        if newTable.id ∈ (mergeWithExistingSchema S O t1).tables.map (fun t => t.id) then
          updateLast (fun t => t.id == newTable.id)
            (fun t => mergeTableInfo t newTable) acc
        else acc ++ [newTable])
      (fun _ _ => rfl) O.tables (mergeWithExistingSchema S O t1).tables
      (fun nt hnt => ?_)
    obtain ⟨t, hlm, habs⟩ := hspec.1 nt hnt
    have hlm2 : lastMatch (fun c2 => c2.id == nt.id)
        (mergeWithExistingSchema S O t1).tables = some t := hlm
    obtain ⟨htmem, htp⟩ := lastMatch_mem _ _ _ hlm2
    refine ⟨?_, fun c hc => ?_⟩
    · have hceq : t.id = nt.id := by simpa using htp
      have hmm := List.mem_map_of_mem (fun t => t.id) htmem
      simp only at hmm
      rw [hceq] at hmm
      exact hmm
    · rw [hlm2] at hc
      cases hc
      exact mergeTableInfo_eq_of_absorbs _ _ habs
  · rw [mergeWithExistingSchema_relationships]
    have hnil : O.relationships.filter
        (fun r => r.id ∉
          (mergeWithExistingSchema S O t1).relationships.map (fun r2 => r2.id)) = [] := by
      rw [List.filter_eq_nil_iff]
      intro r hr
      simp only [decide_eq_true_eq, not_not]
      rw [mergeWithExistingSchema_relationships, List.map_append]
      apply List.mem_append.mpr
      by_cases hrs : r.id ∈ S.relationships.map (fun r2 => r2.id)
      · exact Or.inl hrs
      · refine Or.inr ?_
        have hmem : r ∈ O.relationships.filter
            (fun r2 => r2.id ∉ S.relationships.map (fun r3 => r3.id)) :=
          List.mem_filter.mpr ⟨hr, by simpa using hrs⟩
        exact List.mem_map_of_mem (fun r2 => r2.id) hmem
    rw [hnil, List.append_nil]

instance (t : TableInfo) : Decidable (WellFormedTable t) := by
  unfold WellFormedTable
  infer_instance

def emptySchemaDb : SchemaCache :=
  { databaseId := "db", lastUpdated := 0, tables := [], relationships := [] }

def dupExampleColumn : ColumnInfo :=
  { id := "c1", name := "x", type := "string", isPrimaryKey := false,
    isForeignKey := false, isNullable := false, examples := some ["a", "a"] }

/-- An observation whose column carries a duplicated example value. -/
def dupExampleObs : SchemaCache :=
  { databaseId := "db", lastUpdated := 0,
    tables := [{ id := "t1", name := "users", columns := [dupExampleColumn] }],
    relationships := [] }

/-- C4 counterexample: merging an observation whose (fresh) table carries the
duplicated example list `["a", "a"]` twice differs from merging it once — the
first merge appends the column as-is (examples `["a", "a"]`), the second merge
de-duplicates them to `["a"]`, so the snapshot content changes. -/
theorem mergeWithExistingSchema_idempotence_refuted :
    (mergeWithExistingSchema (mergeWithExistingSchema emptySchemaDb dupExampleObs 1)
        dupExampleObs 1).tables ≠
      (mergeWithExistingSchema emptySchemaDb dupExampleObs 1).tables := by decide

def cleanObs : SchemaCache :=
  { databaseId := "db", lastUpdated := 0,
    tables := [{ id := "t1", name := "users", columns :=
      [{ id := "c1", name := "x", type := "string", isPrimaryKey := false,
         isForeignKey := false, isNullable := false, examples := some ["a"] }] }],
    relationships := [] }

theorem mergeWithExistingSchema_idempotent_witness :
    (mergeWithExistingSchema (mergeWithExistingSchema emptySchemaDb cleanObs 1)
        cleanObs 2).tables =
      (mergeWithExistingSchema emptySchemaDb cleanObs 1).tables :=
  (mergeWithExistingSchema_idempotent emptySchemaDb cleanObs 1 2 (by decide) (by decide)).1

/-- C8 (amended): during `mergeWithExistingSchema`, an incoming table is
matched against existing tables by id ONLY — there is no case-insensitive name
fallback — and every incoming table whose id is absent from the existing
snapshot is appended, so the resulting table-id list is the existing ids
followed by the fresh incoming ids.  In particular an incoming table carrying
an existing table's name under a different id is appended as a second table of
that name (see the counterexample against the claim as stated). -/
theorem mergeWithExistingSchema_matches_by_id_only (S O : SchemaCache) (now : Nat) :
    (mergeWithExistingSchema S O now).tables.map (fun t => t.id) =
      S.tables.map (fun t => t.id) ++
        (O.tables.filter (fun t => t.id ∉ S.tables.map (fun t2 => t2.id))).map
          (fun t => t.id) := by
  rw [mergeWithExistingSchema_tables]
  exact foldUpsert_map_id (fun t => t.id) (fun t nt => mergeTableInfo t nt)
    (fun c x => mergeTableInfo_id c x) (S.tables.map (fun t => t.id))
    _ (fun _ _ => rfl) O.tables S.tables

/-- A snapshot holding one table named `users` with id `t1`. -/
def schemaUsersT1 : SchemaCache :=
  { databaseId := "db", lastUpdated := 0,
    tables := [{ id := "t1", name := "users", columns := [] }],
    relationships := [] }

/-- An observation holding one table named `users` with the different id `t2`. -/
def obsUsersT2 : SchemaCache :=
  { databaseId := "db", lastUpdated := 0,
    tables := [{ id := "t2", name := "users", columns := [] }],
    relationships := [] }

/-- C8 counterexample: merging an observation that carries a table with an
existing table's name (`users`) but a different id creates a second table of
that name — there is no name-based fallback match. -/
theorem mergeWithExistingSchema_name_fallback_refuted :
    (mergeWithExistingSchema schemaUsersT1 obsUsersT2 1).tables.map (fun t => t.name) =
      ["users", "users"] ∧
    ¬ ((mergeWithExistingSchema schemaUsersT1 obsUsersT2 1).tables.map
        (fun t => t.name)).Nodup := by decide

/-- C10: when the builder's current schema is `null`, `learnFromQuery` returns
immediately after the logged warning: the state (including the learning queue
and the absent snapshot) is unchanged and nothing is persisted. -/
theorem learnFromQuery_without_schema_is_noop (genId : Nat → String)
    (st : BuilderState) (args : LearningArgs) (env : Nat → Bool × Nat)
    (h : st.currentSchema = none) :
    learnFromQuery genId st args env = (st, []) := by
  unfold learnFromQuery
  rw [h]

theorem learnFromQuery_without_schema_is_noop_witness :
    learnFromQuery (fun n => toString n)
      { databaseId := "db", currentSchema := none, isBuilding := false,
        learningQueue := [] }
      { tablesAndColumns := [("users", ["id"])], resultColumns := [],
        resultData := [] }
      (fun _ => (true, 7)) =
    ({ databaseId := "db", currentSchema := none, isBuilding := false,
        learningQueue := [] }, []) :=
  learnFromQuery_without_schema_is_noop (fun n => toString n) _ _ _ rfl

/-- The snapshot the failing-task scenario starts from. -/
def schemaBeforeTask : SchemaCache :=
  { databaseId := "db", lastUpdated := 5, tables := [], relationships := [] }

/-- A learning task whose SQL references the table `users`. -/
def taskUsers : LearningArgs :=
  { tablesAndColumns := [("users", [])], resultColumns := [], resultData := [] }

/-- A learning task whose SQL references the table `orders`. -/
def taskOrders : LearningArgs :=
  { tablesAndColumns := [("orders", [])], resultColumns := [], resultData := [] }

/-- C3: evaluation of the queued-task code at the failing input.  When the
persistence write of the first task fails, the task's error is caught and the
queue continues (the second task runs and persists), BUT the in-memory
snapshot was already mutated through the aliased `tables` array of the shallow
copy `{ ...this.currentSchema }`: after the failed first task the snapshot
contains the `users` table even though nothing was persisted for it. -/
theorem learningTask_failure_mutates_snapshot :
    (runLearningTask (fun n => toString n) schemaBeforeTask taskUsers false 9).1.tables.map
        (fun t => t.name) = ["users"] ∧
    (runLearningTask (fun n => toString n) schemaBeforeTask taskUsers false 9).2 = [] ∧
    (runLearningTask (fun n => toString n) schemaBeforeTask taskUsers false 9).1.tables ≠
      schemaBeforeTask.tables ∧
    (runLearningTask (fun n => toString n) schemaBeforeTask taskUsers false 9).1.lastUpdated =
      schemaBeforeTask.lastUpdated ∧
    (processLearningQueue (fun n => toString n) schemaBeforeTask [taskUsers, taskOrders]
        (fun i => (i == 1, 9))).1.tables.map (fun t => t.name) = ["users", "orders"] ∧
    (processLearningQueue (fun n => toString n) schemaBeforeTask [taskUsers, taskOrders]
        (fun i => (i == 1, 9))).2.length = 1 := by decide

theorem updateFirst_getElem {α : Type} (p : α → Bool) (f : α → α) (l : List α) (i : Nat) :
    (updateFirst p f l)[i]? = l[i]? ∨ (updateFirst p f l)[i]? = l[i]?.map f := by
  induction l generalizing i with
  | nil => left; rfl
  | cons x xs ih =>
    unfold updateFirst
    by_cases hpx : p x = true
    · rw [if_pos hpx]
      cases i with
      | zero => right; simp
      | succ j => left; simp
    · rw [if_neg hpx]
      cases i with
      | zero => left; simp
      | succ j =>
        rcases ih j with h | h
        · left; simpa using h
        · right; simpa using h

theorem foldl_updateFirst_rel {α β : Type} (R : α → α → Prop)
    (hrefl : ∀ a, R a a) (htrans : ∀ a b c, R a b → R b c → R a c)
    (P : β → α → Bool) (F : β → α → α)
    (hF : ∀ b a, R a (F b a))
    (steps : List β) (l : List α) (i : Nat) (a2 : α)
    (h : (steps.foldl (fun acc b => updateFirst (P b) (F b) acc) l)[i]? = some a2) :
    ∃ a, l[i]? = some a ∧ R a a2 := by
  induction steps generalizing l with
  | nil => exact ⟨a2, h, hrefl a2⟩
  | cons b bs ih =>
    rw [List.foldl_cons] at h
    obtain ⟨a1, ha1, hr⟩ := ih (updateFirst (P b) (F b) l) h
    rcases updateFirst_getElem (P b) (F b) l i with h2 | h2
    · rw [h2] at ha1
      exact ⟨a1, ha1, hr⟩
    · rw [h2] at ha1
      cases h0 : l[i]? with
      | none => rw [h0] at ha1; cases ha1
      | some a0 =>
        rw [h0] at ha1
        simp only [Option.map] at ha1
        cases ha1
        exact ⟨a0, rfl, htrans _ _ _ (hF b a0) hr⟩

theorem inferColumnFromSamples_of_known (c : ColumnInfo) (s : List JsValue)
    (h : c.type ≠ "unknown") : inferColumnFromSamples c s = c := by
  unfold inferColumnFromSamples
  rw [if_pos h]

theorem inferColumnFromSamples_isPrimaryKey (c : ColumnInfo) (s : List JsValue) :
    (inferColumnFromSamples c s).isPrimaryKey = c.isPrimaryKey := by
  simp only [inferColumnFromSamples]
  split_ifs <;> rfl

theorem inferColumnFromSamples_isForeignKey (c : ColumnInfo) (s : List JsValue) :
    (inferColumnFromSamples c s).isForeignKey = c.isForeignKey := by
  simp only [inferColumnFromSamples]
  split_ifs <;> rfl

/-- Pointwise relation used for the learn-path monotonicity: the type is
preserved once concrete, and the key flags are untouched. -/
def LearnPreserves (c c2 : ColumnInfo) : Prop :=
  (c.type ≠ "unknown" → c2.type = c.type) ∧
  c2.isPrimaryKey = c.isPrimaryKey ∧ c2.isForeignKey = c.isForeignKey

theorem learnPreserves_step (b : Nat × String) (data : List (List JsValue)) (c : ColumnInfo) :
    LearnPreserves c (inferColumnFromSamples c (sampleColumnValues data b.1)) := by
  refine ⟨fun h => ?_, inferColumnFromSamples_isPrimaryKey c _,
    inferColumnFromSamples_isForeignKey c _⟩
  rw [inferColumnFromSamples_of_known c _ h]

/-- C2 (amended): under every merge, a concrete column type is never replaced
(by `unknown` or by a different concrete type) and the three flags are
monotonic ORs; under every learn step (`inferTypesFromData`), a concrete type
is likewise never replaced and the key flags are untouched — but `isNullable`
is NOT monotonic on the learn path: for an unknown-typed column it is
overwritten by whether the current samples contain `null`, and can drop from
`true` back to `false` (see the counterexample). -/
theorem type_and_flag_monotonicity :
    (∀ e n : ColumnInfo, e.type ≠ "unknown" → (mergeColumnInfo e n).type = e.type) ∧
    (∀ e n : ColumnInfo, (mergeColumnInfo e n).type = "unknown" → e.type = "unknown") ∧
    (∀ e n : ColumnInfo, e.isPrimaryKey = true → (mergeColumnInfo e n).isPrimaryKey = true) ∧
    (∀ e n : ColumnInfo, e.isForeignKey = true → (mergeColumnInfo e n).isForeignKey = true) ∧
    (∀ e n : ColumnInfo, e.isNullable = true → (mergeColumnInfo e n).isNullable = true) ∧
    (∀ (table : TableInfo) (columnNames : List String) (data : List (List JsValue))
        (i : Nat) (c2 : ColumnInfo),
      (inferTypesFromData table columnNames data).columns[i]? = some c2 →
      ∃ c, table.columns[i]? = some c ∧
        (c.type ≠ "unknown" → c2.type = c.type) ∧
        c2.isPrimaryKey = c.isPrimaryKey ∧ c2.isForeignKey = c.isForeignKey) := by
  refine ⟨?_, ?_, ?_, ?_, ?_, ?_⟩
  · intro e n h
    rw [mergeColumnInfo_type, if_neg]
    rintro ⟨hc, _⟩
    exact h hc
  · intro e n h
    rw [mergeColumnInfo_type] at h
    by_cases hc : e.type = "unknown"
    · exact hc
    · rw [if_neg (fun hcc => hc hcc.1)] at h
      exact h
  · intro e n h
    rw [mergeColumnInfo_isPrimaryKey, h]
    simp
  · intro e n h
    rw [mergeColumnInfo_isForeignKey, h]
    simp
  · intro e n h
    rw [mergeColumnInfo_isNullable, h]
    simp
  · intro table columnNames data i c2 h
    simp only [inferTypesFromData] at h
    exact foldl_updateFirst_rel LearnPreserves
      (fun a => ⟨fun _ => rfl, rfl, rfl⟩)
      (fun a b c hab hbc =>
        ⟨fun ha => by
            have h1 := hab.1 ha
            have h2 := hbc.1 (by rw [h1]; exact ha)
            rw [h2, h1],
          hbc.2.1.trans hab.2.1, hbc.2.2.trans hab.2.2⟩)
      (fun b c => strLower c.name == strLower b.2)
      (fun b c => inferColumnFromSamples c (sampleColumnValues data b.1))
      (fun b a => learnPreserves_step b data a)
      columnNames.enum table.columns i c2 h

/-- A column of unknown type, nullable by default (as `ensureColumnExists`
creates them). -/
def unknownNullableCol : ColumnInfo :=
  { id := "c", name := "c", type := "unknown", isPrimaryKey := false,
    isForeignKey := false, isNullable := true }

def tableWithUnknownCol : TableInfo :=
  { id := "t", name := "t", columns := [unknownNullableCol] }

/-- C2 counterexample: the learn path is NOT monotonic for `isNullable`.  A
column of unknown type with `isNullable = true` (the default) is set to
`isNullable = false` by `inferTypesFromData` when the sampled values contain
no `null` — a true-to-false transition. -/
theorem isNullable_monotonicity_refuted :
    tableWithUnknownCol.columns.map (fun c => c.isNullable) = [true] ∧
    (inferTypesFromData tableWithUnknownCol ["c"] [[JsValue.int 1]]).columns.map
      (fun c => c.isNullable) = [false] := by decide

def witColE : ColumnInfo :=
  { id := "c1", name := "x", type := "date", isPrimaryKey := true,
    isForeignKey := true, isNullable := true }

def witColN : ColumnInfo :=
  { id := "c1", name := "x", type := "integer", isPrimaryKey := false,
    isForeignKey := false, isNullable := false }

def witColUnknown : ColumnInfo :=
  { id := "c2", name := "y", type := "unknown", isPrimaryKey := false,
    isForeignKey := false, isNullable := false }

def dateColKnown : ColumnInfo :=
  { id := "c3", name := "c", type := "date", isPrimaryKey := false,
    isForeignKey := false, isNullable := false }

def tableWithKnownCol : TableInfo :=
  { id := "t2", name := "t2", columns := [dateColKnown] }

theorem type_and_flag_monotonicity_witness :
    (mergeColumnInfo witColE witColN).type = witColE.type ∧
    witColUnknown.type = "unknown" ∧
    (mergeColumnInfo witColE witColN).isPrimaryKey = true ∧
    (mergeColumnInfo witColE witColN).isForeignKey = true ∧
    (mergeColumnInfo witColE witColN).isNullable = true ∧
    (∃ c, tableWithKnownCol.columns[0]? = some c ∧
      (c.type ≠ "unknown" → dateColKnown.type = c.type) ∧
      dateColKnown.isPrimaryKey = c.isPrimaryKey ∧
      dateColKnown.isForeignKey = c.isForeignKey) :=
  ⟨type_and_flag_monotonicity.1 witColE witColN (by decide),
    type_and_flag_monotonicity.2.1 witColUnknown witColUnknown (by decide),
    type_and_flag_monotonicity.2.2.1 witColE witColN (by decide),
    type_and_flag_monotonicity.2.2.2.1 witColE witColN (by decide),
    type_and_flag_monotonicity.2.2.2.2.1 witColE witColN (by decide),
    type_and_flag_monotonicity.2.2.2.2.2 tableWithKnownCol ["c"] [[JsValue.int 1]] 0
      dateColKnown (by decide)⟩

theorem inferColumnFromSamples_examples (c : ColumnInfo) (s : List JsValue) :
    (inferColumnFromSamples c s).examples = c.examples ∨
    (inferColumnFromSamples c s).examples = some (c.examples.getD []) ∨
    ∃ nn, (inferColumnFromSamples c s).examples =
      some ((dedupFirst (c.examples.getD [] ++ nn)).take 10) := by
  simp only [inferColumnFromSamples]
  split_ifs
  · left; rfl
  · right; right; exact ⟨_, rfl⟩
  · right; left; rfl

/-- The invariant the claim asserts of example lists: de-duplicated and at
most ten entries. -/
def ExamplesInv (c : ColumnInfo) : Prop :=
  (c.examples.getD []).Nodup ∧ (c.examples.getD []).length ≤ 10

theorem inferColumnFromSamples_examples_inv (c : ColumnInfo) (s : List JsValue)
    (h : ExamplesInv c) : ExamplesInv (inferColumnFromSamples c s) := by
  obtain ⟨h1, h2⟩ := h
  rcases inferColumnFromSamples_examples c s with he | he | ⟨nn, he⟩ <;>
    unfold ExamplesInv <;> rw [he]
  · exact ⟨h1, h2⟩
  · simp only [Option.getD_some]
    exact ⟨h1, h2⟩
  · simp only [Option.getD_some]
    constructor
    · exact (List.take_sublist _ _).nodup (dedupFirst_nodup _)
    · simp

/-- C6 (amended): after every merge step the example list stays de-duplicated
and insertion-order-preserving (a sublist of the previous list followed by the
incoming list) but is NOT capped — only the learn path applies the 10-entry
cap; after every learn step the list stays de-duplicated and has at most 10
entries.  The counterexample shows a merge growing a list to 11 entries. -/
theorem examples_dedup_and_cap :
    (∀ e n : ColumnInfo,
      (e.examples.getD []).Nodup → (n.examples.getD []).Nodup →
      ((mergeColumnInfo e n).examples.getD []).Nodup ∧
      ((mergeColumnInfo e n).examples.getD []).Sublist
        (e.examples.getD [] ++ n.examples.getD [])) ∧
    (∀ (table : TableInfo) (columnNames : List String) (data : List (List JsValue))
        (i : Nat) (c2 : ColumnInfo),
      (∀ c ∈ table.columns, ExamplesInv c) →
      (inferTypesFromData table columnNames data).columns[i]? = some c2 →
      ExamplesInv c2) := by
  constructor
  · intro e n he hn
    rw [mergeColumnInfo_examples]
    rcases hne : n.examples with _ | newEx
    · exact ⟨he, by simp⟩
    · dsimp only
      rw [hne] at hn
      simp only [Option.getD_some] at hn
      by_cases hemp : newEx = []
      · rw [if_pos hemp]
        subst hemp
        exact ⟨he, by simp⟩
      · rw [if_neg hemp]
        rcases hee : e.examples with _ | oldEx
        · refine ⟨by simpa using hn, ?_⟩
          simp
        · rw [hee] at he
          simp only [Option.getD_some] at he
          refine ⟨by simpa using dedupFirst_nodup (oldEx ++ newEx), ?_⟩
          simpa using dedupFirst_sublist (oldEx ++ newEx)
  · intro table columnNames data i c2 hP h
    simp only [inferTypesFromData] at h
    obtain ⟨c, hc, hrel⟩ := foldl_updateFirst_rel
      (fun a a2 => ExamplesInv a → ExamplesInv a2)
      (fun a ha => ha) (fun a b c hab hbc ha => hbc (hab ha))
      (fun b c => strLower c.name == strLower b.2)
      (fun b c => inferColumnFromSamples c (sampleColumnValues data b.1))
      (fun b a ha => inferColumnFromSamples_examples_inv a _ ha)
      columnNames.enum table.columns i c2 h
    exact hrel (hP c (List.getElem?_mem hc))

instance (c : ColumnInfo) : Decidable (ExamplesInv c) := by
  unfold ExamplesInv
  infer_instance

/-- A column already holding ten distinct example values. -/
def colTenExamples : ColumnInfo :=
  { id := "c1", name := "x", type := "string", isPrimaryKey := false,
    isForeignKey := false, isNullable := false,
    examples := some ["e0", "e1", "e2", "e3", "e4", "e5", "e6", "e7", "e8", "e9"] }

/-- An incoming column carrying one new example value. -/
def colOneNewExample : ColumnInfo :=
  { id := "c1", name := "x", type := "string", isPrimaryKey := false,
    isForeignKey := false, isNullable := false, examples := some ["f"] }

/-- C6 counterexample: `mergeColumnInfo` applies no cap — merging one new
example into a column that already has ten grows the list to 11 entries,
violating the claimed at-most-10 invariant. -/
theorem examples_cap_refuted :
    ((mergeColumnInfo colTenExamples colOneNewExample).examples.getD []).length = 11 := by
  decide

theorem examples_dedup_and_cap_witness :
    (((mergeColumnInfo witColE colOneNewExample).examples.getD []).Nodup ∧
      ((mergeColumnInfo witColE colOneNewExample).examples.getD []).Sublist
        (witColE.examples.getD [] ++ colOneNewExample.examples.getD [])) ∧
    ExamplesInv dateColKnown :=
  ⟨examples_dedup_and_cap.1 witColE colOneNewExample (by decide) (by decide),
    examples_dedup_and_cap.2 tableWithKnownCol ["c"] [[JsValue.int 1]] 0 dateColKnown
      (by decide) (by decide)⟩

/-- C5 (amended): the type inferencer applies the strict precedence integer,
number, boolean, date, string over the non-null samples — but its notion of
"parses as an integer/number" follows JavaScript `parseFloat`, which accepts
any string with a numeric prefix.  Date-like strings such as `"2024-01-01"`
therefore classify as INTEGER, not date: for `["2024-01-01", "2024-02-15"]`
the inferred column gets type `integer` with nullable `false` (not `date` as
claimed), and for `[1, 2, null, 4]` type `integer` with nullable `true`. -/
theorem inferColumnType_precedence_and_scenarios :
    (∀ values : List JsValue,
      values.filter (fun v => !(v == JsValue.null)) ≠ [] →
      (((values.filter (fun v => !(v == JsValue.null))).all
            (fun v => v.isNum || (parseFloatVal v).isSome) &&
          (values.filter (fun v => !(v == JsValue.null))).all
            (fun v => numIsInteger (parseFloatVal v))) = true →
        inferColumnType values = "integer") ∧
      ((values.filter (fun v => !(v == JsValue.null))).all
          (fun v => v.isNum || (parseFloatVal v).isSome) = true →
        (values.filter (fun v => !(v == JsValue.null))).all
          (fun v => numIsInteger (parseFloatVal v)) = false →
        inferColumnType values = "number") ∧
      ((values.filter (fun v => !(v == JsValue.null))).all
          (fun v => v.isNum || (parseFloatVal v).isSome) = false →
        (values.filter (fun v => !(v == JsValue.null))).all
          (fun v => v.isBool || v == JsValue.str "true" || v == JsValue.str "false") = true →
        inferColumnType values = "boolean") ∧
      ((values.filter (fun v => !(v == JsValue.null))).all
          (fun v => v.isNum || (parseFloatVal v).isSome) = false →
        (values.filter (fun v => !(v == JsValue.null))).all
          (fun v => v.isBool || v == JsValue.str "true" || v == JsValue.str "false") = false →
        (values.filter (fun v => !(v == JsValue.null))).all
          (fun v => jsDateParse (jsToString v)) = true →
        inferColumnType values = "date") ∧
      ((values.filter (fun v => !(v == JsValue.null))).all
          (fun v => v.isNum || (parseFloatVal v).isSome) = false →
        (values.filter (fun v => !(v == JsValue.null))).all
          (fun v => v.isBool || v == JsValue.str "true" || v == JsValue.str "false") = false →
        (values.filter (fun v => !(v == JsValue.null))).all
          (fun v => jsDateParse (jsToString v)) = false →
        inferColumnType values = "string")) ∧
    (inferTypesFromData tableWithUnknownCol ["c"]
        [[JsValue.int 1], [JsValue.int 2], [JsValue.null], [JsValue.int 4]]).columns.map
      (fun c => (c.type, c.isNullable)) = [("integer", true)] ∧
    (inferTypesFromData tableWithUnknownCol ["c"]
        [[JsValue.str "2024-01-01"], [JsValue.str "2024-02-15"]]).columns.map
      (fun c => (c.type, c.isNullable)) = [("integer", false)] := by
  refine ⟨?_, by decide, by decide⟩
  intro values hnn
  have hv : ¬ values.length = 0 := by
    intro h0
    have h1 : values = [] := List.length_eq_zero.mp h0
    subst h1
    simp at hnn
  have hnnl : ¬ (values.filter (fun v => !(v == JsValue.null))).length = 0 := by
    intro h0
    exact hnn (List.length_eq_zero.mp h0)
  refine ⟨?_, ?_, ?_, ?_, ?_⟩
  · intro h1
    simp only [inferColumnType]
    rw [if_neg hv, if_neg hnnl, if_pos h1]
  · intro h1 h2
    have hni : ¬ ((values.filter (fun v => !(v == JsValue.null))).all
          (fun v => v.isNum || (parseFloatVal v).isSome) &&
        (values.filter (fun v => !(v == JsValue.null))).all
          (fun v => numIsInteger (parseFloatVal v))) = true := by
      rw [h1, h2]
      simp
    simp only [inferColumnType]
    rw [if_neg hv, if_neg hnnl, if_neg hni, if_pos h1]
  · intro h1 h2
    have hni : ¬ ((values.filter (fun v => !(v == JsValue.null))).all
          (fun v => v.isNum || (parseFloatVal v).isSome) &&
        (values.filter (fun v => !(v == JsValue.null))).all
          (fun v => numIsInteger (parseFloatVal v))) = true := by
      rw [h1]
      simp
    have hnum : ¬ (values.filter (fun v => !(v == JsValue.null))).all
        (fun v => v.isNum || (parseFloatVal v).isSome) = true := by
      rw [h1]
      simp
    simp only [inferColumnType]
    rw [if_neg hv, if_neg hnnl, if_neg hni, if_neg hnum, if_pos h2]
  · intro h1 h2 h3
    have hni : ¬ ((values.filter (fun v => !(v == JsValue.null))).all
          (fun v => v.isNum || (parseFloatVal v).isSome) &&
        (values.filter (fun v => !(v == JsValue.null))).all
          (fun v => numIsInteger (parseFloatVal v))) = true := by
      rw [h1]
      simp
    have hnum : ¬ (values.filter (fun v => !(v == JsValue.null))).all
        (fun v => v.isNum || (parseFloatVal v).isSome) = true := by
      rw [h1]
      simp
    have hbool : ¬ (values.filter (fun v => !(v == JsValue.null))).all
        (fun v => v.isBool || v == JsValue.str "true" || v == JsValue.str "false") = true := by
      rw [h2]
      simp
    simp only [inferColumnType]
    rw [if_neg hv, if_neg hnnl, if_neg hni, if_neg hnum, if_neg hbool, if_pos h3]
  · intro h1 h2 h3
    have hni : ¬ ((values.filter (fun v => !(v == JsValue.null))).all
          (fun v => v.isNum || (parseFloatVal v).isSome) &&
        (values.filter (fun v => !(v == JsValue.null))).all
          (fun v => numIsInteger (parseFloatVal v))) = true := by
      rw [h1]
      simp
    have hnum : ¬ (values.filter (fun v => !(v == JsValue.null))).all
        (fun v => v.isNum || (parseFloatVal v).isSome) = true := by
      rw [h1]
      simp
    have hbool : ¬ (values.filter (fun v => !(v == JsValue.null))).all
        (fun v => v.isBool || v == JsValue.str "true" || v == JsValue.str "false") = true := by
      rw [h2]
      simp
    have hdate : ¬ (values.filter (fun v => !(v == JsValue.null))).all
        (fun v => jsDateParse (jsToString v)) = true := by
      rw [h3]
      simp
    simp only [inferColumnType]
    rw [if_neg hv, if_neg hnnl, if_neg hni, if_neg hnum, if_neg hbool, if_neg hdate]

/-- C5 counterexample: the sample set `["2024-01-01", "2024-02-15"]` does NOT
infer type `date`: `parseFloat` reads the numeric prefix `2024` of each
string, so every sample "parses as an integer" and the precedence chain stops
at `integer`. -/
theorem inferColumnType_date_scenario_refuted :
    inferColumnType [JsValue.str "2024-01-01", JsValue.str "2024-02-15"] = "integer" ∧
    "integer" ≠ "date" := by decide

theorem inferColumnType_precedence_witness :
    inferColumnType [JsValue.int 7] = "integer" ∧
    inferColumnType [JsValue.str "1.5"] = "number" ∧
    inferColumnType [JsValue.bool true] = "boolean" ∧
    inferColumnType [JsValue.str "Jan 15, 2024"] = "date" ∧
    inferColumnType [JsValue.str "hello"] = "string" :=
  ⟨((inferColumnType_precedence_and_scenarios).1 [JsValue.int 7] (by decide)).1
      (by decide),
    ((inferColumnType_precedence_and_scenarios).1 [JsValue.str "1.5"] (by decide)).2.1
      (by decide) (by decide),
    ((inferColumnType_precedence_and_scenarios).1 [JsValue.bool true] (by decide)).2.2.1
      (by decide) (by decide),
    ((inferColumnType_precedence_and_scenarios).1 [JsValue.str "Jan 15, 2024"]
      (by decide)).2.2.2.1 (by decide) (by decide) (by decide),
    ((inferColumnType_precedence_and_scenarios).1 [JsValue.str "hello"]
      (by decide)).2.2.2.2 (by decide) (by decide) (by decide)⟩

theorem dropTablesLoopFuel_bound (fuel : Nat) (schema : CompressedSchema) (maxTokens : Nat)
    (h : schema.tables.length ≤ fuel) :
    estimateTokens (schemaToString (dropTablesLoopFuel fuel schema maxTokens)) ≤ maxTokens ∨
    (dropTablesLoopFuel fuel schema maxTokens).tables.length ≤ 1 := by
  induction fuel generalizing schema with
  | zero =>
    right
    simp only [dropTablesLoopFuel]
    omega
  | succ fuel ih =>
    unfold dropTablesLoopFuel
    split
    · rename_i hc
      apply ih
      simp only [List.length_dropLast]
      omega
    · rename_i hc
      rcases Nat.lt_or_ge maxTokens (estimateTokens (schemaToString schema)) with hgt | hle
      · right
        by_contra h2
        exact hc ⟨hgt, by omega⟩
      · left
        exact hle

theorem dropTablesLoop_bound (schema : CompressedSchema) (maxTokens : Nat) :
    estimateTokens (schemaToString (dropTablesLoop schema maxTokens)) ≤ maxTokens ∨
    (dropTablesLoop schema maxTokens).tables.length ≤ 1 := by
  unfold dropTablesLoop
  exact dropTablesLoopFuel_bound _ _ _ (Nat.le_refl _)

theorem trimToTokenLimit_bound (schema : CompressedSchema) (maxTokens : Nat) :
    estimateTokens (schemaToString (trimToTokenLimit schema maxTokens)) ≤ maxTokens ∨
    (trimToTokenLimit schema maxTokens).tables.length ≤ 1 := by
  simp only [trimToTokenLimit]
  by_cases hle : estimateTokens (schemaToString schema) ≤ maxTokens
  · rw [if_pos hle]
    exact Or.inl hle
  · rw [if_neg hle]
    exact dropTablesLoop_bound _ _

/-- C1 (amended): for every snapshot, referenced-table list and nonzero token
budget, `compressSchema` returns a result whose estimated token cost is within
the budget OR a result already trimmed to at most one table.  The floor case
is NOT "one table with only its key columns": column reduction is a single
30% pass that keeps at least the key columns, so the single surviving table
can exceed the budget even when the budget would accommodate its key-columns-
only projection (see the counterexample). -/
theorem compressSchema_token_bound_or_single_table (schema : SchemaCache)
    (referencedTables : List String) (options : SchemaCompressionOptions)
    (h : options.maxTokens ≠ 0) :
    estimateTokens (schemaToString (compressSchema schema referencedTables options)) ≤
        options.maxTokens ∨
    (compressSchema schema referencedTables options).tables.length ≤ 1 := by
  unfold compressSchema
  split
  · right
    simp
  · dsimp only
    exact trimToTokenLimit_bound _ _

/-- Four unknown-typed, key-less columns. -/
def wideColumns : List ColumnInfo :=
  (List.range 4).map (fun i =>
    { id := "c" ++ toString i, name := "col" ++ toString i, type := "unknown",
      isPrimaryKey := false, isForeignKey := false, isNullable := true })

/-- A snapshot with a single four-column table. -/
def wideTableSchema : SchemaCache :=
  { databaseId := "db", lastUpdated := 0,
    tables := [{ id := "t", name := "t", columns := wideColumns }],
    relationships := [] }

/-- The default compression options with a token budget of 3. -/
def budget3Options : SchemaCompressionOptions :=
  { DEFAULT_COMPRESSION_OPTIONS with maxTokens := 3 }

/-- C1 counterexample: with budget B = 3, compressing a snapshot holding one
four-column table returns a result of estimated cost 11 > B (the single 30%
column pass keeps 2 of the 4 columns), even though B is NOT smaller than the
cost (2 tokens) of that single table reduced to its key columns only — the
claim's floor-case condition does not hold, yet the result exceeds the
budget. -/
theorem compressSchema_token_bound_refuted :
    ¬ (estimateTokens (schemaToString (compressSchema wideTableSchema [] budget3Options)) ≤ 3 ∨
       3 < estimateTokens (schemaToString
         { tables := [{ name := "t", columns := [] }], relationships := [] })) := by decide

theorem compressSchema_token_bound_witness :
    estimateTokens (schemaToString (compressSchema wideTableSchema [] budget3Options)) ≤ 3 ∨
    (compressSchema wideTableSchema [] budget3Options).tables.length ≤ 1 :=
  compressSchema_token_bound_or_single_table wideTableSchema [] budget3Options (by decide)

/-! ### C7: survival of referenced tables under compression -/

theorem exists_append_trans {α : Type} {A B C : List α}
    (h1 : ∃ q, A ++ q = B) (h2 : ∃ q, B ++ q = C) : ∃ q, A ++ q = C := by
  obtain ⟨q1, rfl⟩ := h1
  obtain ⟨q2, rfl⟩ := h2
  exact ⟨q1 ++ q2, by simp⟩

theorem dropLast_exists_append {α : Type} (l : List α) : ∃ q, l.dropLast ++ q = l := by
  refine ⟨l.drop (l.length - 1), ?_⟩
  rw [List.dropLast_eq_take, List.take_append_drop]

theorem take_exists_append {α : Type} (l : List α) (n : Nat) : ∃ q, l.take n ++ q = l :=
  ⟨l.drop n, List.take_append_drop n l⟩

theorem dropTablesLoopFuel_names (fuel : Nat) (s : CompressedSchema) (m : Nat) :
    ∃ q, (dropTablesLoopFuel fuel s m).tables.map (fun t => t.name) ++ q =
      s.tables.map (fun t => t.name) := by
  induction fuel generalizing s with
  | zero => exact ⟨[], by simp [dropTablesLoopFuel]⟩
  | succ fuel ih =>
    unfold dropTablesLoopFuel
    split
    · refine exists_append_trans (ih _) ?_
      dsimp only
      rw [List.map_dropLast]
      exact dropLast_exists_append _
    · exact ⟨[], by simp⟩

theorem dropTablesLoop_names (s : CompressedSchema) (m : Nat) :
    ∃ q, (dropTablesLoop s m).tables.map (fun t => t.name) ++ q =
      s.tables.map (fun t => t.name) :=
  dropTablesLoopFuel_names _ _ _

theorem capRelationships_tables (s : CompressedSchema) (m e : Nat) :
    (capRelationships s m e).tables = s.tables := by
  unfold capRelationships
  dsimp only
  split <;> rfl

theorem reduceTableColumns_name (t : CompressedTable) :
    (reduceTableColumns t).name = t.name := by
  unfold reduceTableColumns
  dsimp only
  split <;> rfl

theorem reduceColumnsStep_names (s : CompressedSchema) :
    (reduceColumnsStep s).tables.map (fun t => t.name) =
      s.tables.map (fun t => t.name) := by
  unfold reduceColumnsStep
  dsimp only
  rw [List.map_map]
  exact List.map_congr_left (fun t _ => reduceTableColumns_name t)

theorem trimToTokenLimit_names (s : CompressedSchema) (m : Nat) :
    ∃ q, (trimToTokenLimit s m).tables.map (fun t => t.name) ++ q =
      s.tables.map (fun t => t.name) := by
  unfold trimToTokenLimit
  dsimp only
  split
  · exact ⟨[], by simp⟩
  · refine exists_append_trans (dropTablesLoop_names _ _) ?_
    split
    · rw [reduceColumnsStep_names]
      refine exists_append_trans (dropTablesLoop_names _ _) ?_
      rw [capRelationships_tables]
      exact ⟨[], by simp⟩
    · refine exists_append_trans (dropTablesLoop_names _ _) ?_
      rw [capRelationships_tables]
      exact ⟨[], by simp⟩

theorem tableSortLe_total_thm (refs : List String) :
    ∀ a b : TableInfo, tableSortLe refs a b = true ∨ tableSortLe refs b a = true := by
  intro a b
  unfold tableSortLe
  cases refs.contains (strLower a.name) <;> cases refs.contains (strLower b.name) <;> simp

theorem tableSortLe_trans_thm (refs : List String) :
    ∀ a b c : TableInfo, tableSortLe refs a b = true → tableSortLe refs b c = true →
      tableSortLe refs a c = true := by
  intro a b c hab hbc
  unfold tableSortLe at hab hbc ⊢
  cases ha : refs.contains (strLower a.name) <;>
    cases hb : refs.contains (strLower b.name) <;>
      cases hc : refs.contains (strLower c.name) <;>
        simp_all

theorem ref_mem_of_sorted_take {α : Type} (ref : α → Bool) {L P : List α}
    (hPQ : ∃ q, P ++ q = L)
    (hpw : L.Pairwise (fun a b => (ref a || !ref b) = true))
    {t : α} (ht : t ∈ P) (htr : ref t = false)
    {s : α} (hs : s ∈ L) (hsr : ref s = true) : s ∈ P := by
  obtain ⟨Q, rfl⟩ := hPQ
  rcases List.mem_append.mp hs with h | h
  · exact h
  · exfalso
    have hrel := (List.pairwise_append.mp hpw).2.2 t ht s h
    rw [htr, hsr] at hrel
    simp at hrel

theorem compressSchemaCore_tables_take (schema : SchemaCache) (refs : List String)
    (options : SchemaCompressionOptions) (hp : options.prioritizeReferencedTables = true)
    (hrne : refs ≠ []) :
    ∃ k, (compressSchemaCore schema refs options).tables =
      ((List.insertionSort (fun a b => tableSortLe refs a b) schema.tables).take k).map
        (fun t => { name := t.name, columns := compressColumns t.columns options }) := by
  unfold compressSchemaCore
  dsimp only
  rw [if_pos (⟨hp, hrne⟩ : options.prioritizeReferencedTables = true ∧ refs ≠ [])]
  split
  · exact ⟨options.maxTables, rfl⟩
  · refine ⟨(List.insertionSort (fun a b => tableSortLe refs a b) schema.tables).length, ?_⟩
    rw [List.take_length]

theorem compressSchemaCore_names_take (schema : SchemaCache) (refs : List String)
    (options : SchemaCompressionOptions) (hp : options.prioritizeReferencedTables = true)
    (hrne : refs ≠ []) :
    ∃ k, (compressSchemaCore schema refs options).tables.map (fun t => t.name) =
      ((List.insertionSort (fun a b => tableSortLe refs a b) schema.tables).map
        (fun t => t.name)).take k := by
  obtain ⟨k, hk⟩ := compressSchemaCore_tables_take schema refs options hp hrne
  refine ⟨k, ?_⟩
  rw [hk, List.map_map, List.map_take]
  rfl

/-- C7 (amended): with referenced-table prioritization enabled, a table is
"referenced" when its LOWER-CASED name occurs literally in `referencedTables`
(the entries themselves are not lower-cased, so the matching is not
case-insensitive in general).  Every referenced table of the snapshot survives
`compressSchema` as long as any unreferenced table survives: whenever the
result contains a table whose lower-cased name is not in `referencedTables`,
the name of every referenced snapshot table is present in the result.  The
claim's stronger form — a referenced table is present whenever the result is
nonempty — fails both for case-mismatched entries (see the counterexample)
and when several referenced tables compete for the truncated prefix. -/
theorem compressSchema_referenced_tables_survive (schema : SchemaCache)
    (refs : List String) (options : SchemaCompressionOptions)
    (hp : options.prioritizeReferencedTables = true)
    (t : CompressedTable) (ht : t ∈ (compressSchema schema refs options).tables)
    (htr : refs.contains (strLower t.name) = false)
    (s : TableInfo) (hs : s ∈ schema.tables)
    (hsr : refs.contains (strLower s.name) = true) :
    s.name ∈ (compressSchema schema refs options).tables.map (fun u => u.name) := by
  have hrne : refs ≠ [] := by
    intro h
    subst h
    simp at hsr
  have hne : ¬ schema.tables = [] := by
    intro h
    rw [h] at hs
    simp at hs
  obtain ⟨k, hk⟩ := compressSchemaCore_names_take schema refs options hp hrne
  have hres : ∃ q, (compressSchema schema refs options).tables.map (fun u => u.name) ++ q =
      (List.insertionSort (fun a b => tableSortLe refs a b) schema.tables).map
        (fun u => u.name) := by
    unfold compressSchema
    rw [if_neg hne]
    dsimp only
    split
    · refine exists_append_trans (trimToTokenLimit_names _ _) ?_
      rw [hk]
      exact take_exists_append _ k
    · rw [hk]
      exact take_exists_append _ k
  haveI htot : IsTotal TableInfo (fun a b => tableSortLe refs a b = true) :=
    ⟨tableSortLe_total_thm refs⟩
  haveI htrans : IsTrans TableInfo (fun a b => tableSortLe refs a b = true) :=
    ⟨tableSortLe_trans_thm refs⟩
  have hsortPw : List.Pairwise (fun a b => tableSortLe refs a b = true)
      (List.insertionSort (fun a b => tableSortLe refs a b) schema.tables) :=
    List.sorted_insertionSort _ _
  have hNpw : List.Pairwise
      (fun x y => (refs.contains (strLower x) || !refs.contains (strLower y)) = true)
      ((List.insertionSort (fun a b => tableSortLe refs a b) schema.tables).map
        (fun u => u.name)) := by
    rw [List.pairwise_map]
    exact hsortPw
  have hsN : s.name ∈ (List.insertionSort (fun a b => tableSortLe refs a b)
      schema.tables).map (fun u => u.name) :=
    List.mem_map_of_mem _ ((List.perm_insertionSort _ _).mem_iff.mpr hs)
  have htP : t.name ∈ (compressSchema schema refs options).tables.map (fun u => u.name) :=
    List.mem_map_of_mem _ ht
  exact ref_mem_of_sorted_take (fun n => refs.contains (strLower n)) hres hNpw htP htr hsN hsr

/-- A one-column unreferenced table named `junk`. -/
def junkTableC7 : TableInfo :=
  { id := "t1", name := "junk",
    columns := [{ id := "c1", name := "a", type := "unknown",
                  isPrimaryKey := false, isForeignKey := false, isNullable := false }] }

/-- A one-column table named `orders`. -/
def ordersTableC7 : TableInfo :=
  { id := "t2", name := "orders",
    columns := [{ id := "c2", name := "b", type := "unknown",
                  isPrimaryKey := false, isForeignKey := false, isNullable := false }] }

/-- A snapshot holding the `junk` and `orders` tables. -/
def twoTableSchemaC7 : SchemaCache :=
  { databaseId := "db", lastUpdated := 0,
    tables := [junkTableC7, ordersTableC7], relationships := [] }

/-- The default compression options with a token budget of one. -/
def budget1OptionsC7 : SchemaCompressionOptions :=
  { DEFAULT_COMPRESSION_OPTIONS with maxTokens := 1 }

/-- The compressed form of the `junk` table. -/
def compressedJunkC7 : CompressedTable :=
  { name := "junk",
    columns := [{ name := "a", type := "unknown",
                  isPrimaryKey := false, isForeignKey := false }] }

/-- C7 counterexample: the referenced-table match is NOT case-insensitive with
respect to the `referencedTables` entries — the code lower-cases only the
table name before the lookup.  The name `orders` matches the entry `ORDERS`
case-insensitively and the one-token budget forces truncation, yet the result
still contains a table (`junk`) while `orders` has been dropped. -/
theorem compressSchema_case_insensitive_refuted :
    strLower ordersTableC7.name = strLower "ORDERS" ∧
    ordersTableC7 ∈ twoTableSchemaC7.tables ∧
    (compressSchema twoTableSchemaC7 ["ORDERS"] budget1OptionsC7).tables ≠ [] ∧
    "orders" ∉ (compressSchema twoTableSchemaC7 ["ORDERS"] budget1OptionsC7).tables.map
      (fun u => u.name) := by decide

theorem compressSchema_referenced_tables_survive_witness :
    "orders" ∈ (compressSchema twoTableSchemaC7 ["orders"]
      DEFAULT_COMPRESSION_OPTIONS).tables.map (fun u => u.name) :=
  compressSchema_referenced_tables_survive twoTableSchemaC7 ["orders"]
    DEFAULT_COMPRESSION_OPTIONS (by decide) compressedJunkC7 (by decide) (by decide)
    ordersTableC7 (by decide) (by decide)
